import Mathlib

/-!
Verification of the LVX decoding/chunking pipeline in Scripts/lvx_to_las.py.

A capture file is modelled as a list of byte values (List Nat).  Python byte
indexing that can raise IndexError, and struct.unpack that can raise
struct.error, are modelled in an explicit error monad (Except PyErr).  Values
read with int.from_bytes never raise in Python, also on truncated slices, and
are modelled as total functions.  The six f32 IMU values are carried as their
raw 24 payload bytes, since the pipeline only copies them through unchanged.
-/

namespace Lvx

/-- Errors raised by the Python byte-access primitives: indexError models an
IndexError from indexing past the end of a bytes object, structError models a
struct.error from struct.unpack on a slice of the wrong size. -/
inductive PyErr where
  | indexError : PyErr
  | structError : PyErr
deriving DecidableEq

/-- Little-endian unsigned value of a byte list, as int.from_bytes(bs, 'little')
and as struct.unpack of an unsigned field. -/
def leBytes (bs : List Nat) : Nat :=
  bs.foldr (fun b acc => b + 256 * acc) 0

/-- Python slice data[a:b] for a le b: the bytes actually available between the
two positions (never raises, may be shorter than b - a). -/
def sliceBytes (data : List Nat) (a b : Nat) : List Nat :=
  (data.drop a).take (b - a)

/-- Python data[i] on a bytes object: IndexError when i is out of range. -/
def getByte (data : List Nat) (i : Nat) : Except PyErr Nat :=
  match data.get? i with
  | some b => .ok b
  | none => .error .indexError

/-- int.from_bytes(bs, 'little', signed=True): two's-complement signed value.
Faithful to Python also on truncated slices (fewer bytes than expected). -/
def fromBytesSigned (bs : List Nat) : Int :=
  if 2 * leBytes bs < 256 ^ bs.length then (leBytes bs : Int)
  else (leBytes bs : Int) - 256 ^ bs.length

/-- struct.unpack applied to data[off:off+n]: struct.error unless exactly n
bytes are available. -/
def unpackExact (data : List Nat) (off n : Nat) : Except PyErr (List Nat) :=
  let s := sliceBytes data off (off + n)
  if s.length = n then .ok s else .error .structError

/-- One decoded point sample: the tuple (x, y, z, intensity, return_number)
appended by process_package. -/
structure PointSample where
  x : Int
  y : Int
  z : Int
  intensity : Nat
  returnNumber : Nat
deriving DecidableEq

/-- One IMU record: the package timestamp together with the raw 24-byte
payload holding the six little-endian f32 values (gyro and acceleration);
the pipeline never computes with the floats, so they stay raw bytes here. -/
structure ImuRecord where
  timestamp : Nat
  raw : List Nat
deriving DecidableEq

/-- One 14-byte point sub-entry of a package payload, as read inside the
data_type 2/4/7 loops of process_package: three signed little-endian 32-bit
integers, one reflectivity byte, one tag byte.  Returns none when the
sub-entry is the all-zero sentinel (x = y = z = 0 and reflectivity = 0),
which the source excludes from output, and some point otherwise; rn is the
positional return number the source assigns to this slot of the entry. -/
def decodeSub (data : List Nat) (off : Nat) (rn : Nat) :
    Except PyErr (Option PointSample) :=
  let x := fromBytesSigned (sliceBytes data off (off + 4))
  let y := fromBytesSigned (sliceBytes data (off + 4) (off + 8))
  let z := fromBytesSigned (sliceBytes data (off + 8) (off + 12))
  match getByte data (off + 12) with
  | .error e => .error e
  | .ok refl =>
    match getByte data (off + 13) with
    | .error e => .error e
    | .ok _tag =>
      if x = 0 ∧ y = 0 ∧ z = 0 ∧ refl = 0 then .ok none
      else .ok (some ⟨x, y, z, refl, rn⟩)

/-- The data_type 2 loop of process_package: n Cartesian single-return
entries of 14 bytes, return number 1. -/
def decodeSingleLoop (data : List Nat) (off : Nat) :
    Nat → Except PyErr (List PointSample × Nat)
  | 0 => .ok ([], off)
  | n + 1 =>
    match decodeSub data off 1 with
    | .error e => .error e
    | .ok p =>
      match decodeSingleLoop data (off + 14) n with
      | .error e => .error e
      | .ok (rest, off2) => .ok (p.toList ++ rest, off2)

/-- The data_type 4 loop of process_package: n Cartesian double-return
entries of 28 bytes, sub-points at positional return numbers 1 and 2. -/
def decodeDoubleLoop (data : List Nat) (off : Nat) :
    Nat → Except PyErr (List PointSample × Nat)
  | 0 => .ok ([], off)
  | n + 1 =>
    match decodeSub data off 1 with
    | .error e => .error e
    | .ok p1 =>
      match decodeSub data (off + 14) 2 with
      | .error e => .error e
      | .ok p2 =>
        match decodeDoubleLoop data (off + 28) n with
        | .error e => .error e
        | .ok (rest, off2) => .ok (p1.toList ++ p2.toList ++ rest, off2)

/-- The data_type 7 loop of process_package: n Cartesian triple-return
entries of 42 bytes, sub-points at positional return numbers 1, 2 and 3. -/
def decodeTripleLoop (data : List Nat) (off : Nat) :
    Nat → Except PyErr (List PointSample × Nat)
  | 0 => .ok ([], off)
  | n + 1 =>
    match decodeSub data off 1 with
    | .error e => .error e
    | .ok p1 =>
      match decodeSub data (off + 14) 2 with
      | .error e => .error e
      | .ok p2 =>
        match decodeSub data (off + 28) 3 with
        | .error e => .error e
        | .ok p3 =>
          match decodeTripleLoop data (off + 42) n with
          | .error e => .error e
          | .ok (rest, off2) =>
            .ok (p1.toList ++ p2.toList ++ p3.toList ++ rest, off2)

/-- The fixed package-header reads at the top of process_package: five single
bytes, the u32 status code, two single bytes (the second is data_type), and
the u64 timestamp, 19 bytes in all.  Returns (data_type, timestamp). -/
def readPkgHeader (data : List Nat) (offset : Nat) : Except PyErr (Nat × Nat) := do
  let _device_index ← getByte data offset
  let _version ← getByte data (offset + 1)
  let _slot_id ← getByte data (offset + 2)
  let _lidar_id ← getByte data (offset + 3)
  let _reserved ← getByte data (offset + 4)
  let _status_code ← unpackExact data (offset + 5) 4
  let _timestamp_type ← getByte data (offset + 9)
  let data_type ← getByte data (offset + 10)
  let tsBytes ← unpackExact data (offset + 11) 8
  return (data_type, leBytes tsBytes)

/-- process_package(data, offset): reads the 19-byte package header, then
dispatches on data_type exactly as the source: 2 gives 96 single-return
entries, 4 gives 48 double-return entries, 7 gives 30 triple-return entries,
6 gives one IMU record from a 24-byte payload, anything else skips 24 bytes
unread.  Returns (points, imu record or none, new offset). -/
def process_package (data : List Nat) (offset : Nat) :
    Except PyErr (List PointSample × Option ImuRecord × Nat) :=
  match readPkgHeader data offset with
  | .error e => .error e
  | .ok (data_type, timestamp) =>
    if data_type = 2 then
      match decodeSingleLoop data (offset + 19) 96 with
      | .error e => .error e
      | .ok (pts, off2) => .ok (pts, none, off2)
    else if data_type = 4 then
      match decodeDoubleLoop data (offset + 19) 48 with
      | .error e => .error e
      | .ok (pts, off2) => .ok (pts, none, off2)
    else if data_type = 7 then
      match decodeTripleLoop data (offset + 19) 30 with
      | .error e => .error e
      | .ok (pts, off2) => .ok (pts, none, off2)
    else if data_type = 6 then
      match unpackExact data (offset + 19) 24 with
      | .error e => .error e
      | .ok raw => .ok ([], some ⟨timestamp, raw⟩, offset + 19 + 24)
    else
      .ok ([], none, offset + 19 + 24)

/-- The fixed payload size that process_package skips for each data_type. -/
def payloadSize (dt : Nat) : Nat :=
  if dt = 2 then 1344 else if dt = 4 then 1344 else if dt = 7 then 1260 else 24

theorem bind_ok_iff {α β : Type} (x : Except PyErr α) (f : α → Except PyErr β) (b : β) :
    (x >>= f) = .ok b ↔ ∃ a, x = .ok a ∧ f a = .ok b := by
  cases x <;> simp [Bind.bind, Except.bind]

theorem pure_ok_iff {α : Type} (a : α) (b : α) :
    (pure a : Except PyErr α) = .ok b ↔ a = b := by
  simp [pure, Except.pure]

theorem getByte_ok_iff {data : List Nat} {i b : Nat} :
    getByte data i = .ok b ↔ data.get? i = some b := by
  unfold getByte
  cases h : data.get? i <;> simp

theorem getByte_ok_lt {data : List Nat} {i b : Nat} (h : getByte data i = .ok b) :
    i < data.length := by
  rw [getByte_ok_iff] at h
  rcases List.get?_eq_some.mp h with ⟨hlt, _⟩
  exact hlt

theorem sliceBytes_length (data : List Nat) (a b : Nat) :
    (sliceBytes data a b).length = min (b - a) (data.length - a) := by
  simp [sliceBytes]

theorem unpackExact_ok_iff {data : List Nat} {off n : Nat} (hn : 0 < n) {s : List Nat} :
    unpackExact data off n = .ok s ↔
      off + n ≤ data.length ∧ s = sliceBytes data off (off + n) := by
  have hlen := sliceBytes_length data off (off + n)
  unfold unpackExact
  simp only []
  split
  case isTrue h =>
    simp only [Except.ok.injEq]
    constructor
    · intro hs
      refine ⟨?_, hs.symm⟩
      rcases Nat.le_total (off + n - off) (data.length - off) with h1 | h1
      · rw [Nat.min_eq_left h1] at hlen; omega
      · rw [Nat.min_eq_right h1] at hlen; omega
    · intro ⟨h1, h2⟩; exact h2.symm
  case isFalse h =>
    constructor
    · intro hc; cases hc
    · intro ⟨h1, h2⟩
      exfalso
      apply h
      rcases Nat.le_total (off + n - off) (data.length - off) with h3 | h3
      · rw [Nat.min_eq_left h3] at hlen; omega
      · rw [Nat.min_eq_right h3] at hlen; omega

theorem readPkgHeader_ok_elim {data : List Nat} {offset dt ts : Nat}
    (h : readPkgHeader data offset = .ok (dt, ts)) :
    offset + 19 ≤ data.length ∧ data.get? (offset + 10) = some dt := by
  simp only [readPkgHeader, bind_ok_iff, pure_ok_iff] at h
  obtain ⟨a1, h1, a2, h2, a3, h3, a4, h4, a5, h5, a6, h6, a7, h7, a8, h8, a9, h9, hret⟩ := h
  rw [unpackExact_ok_iff (by norm_num)] at h9
  rw [getByte_ok_iff] at h8
  have hdt : dt = a8 := by
    have := congrArg Prod.fst hret
    simp at this
    omega
  subst hdt
  exact ⟨by omega, h8⟩

theorem decodeSub_ok_elim {data : List Nat} {off rn : Nat} {op : Option PointSample}
    (h : decodeSub data off rn = .ok op) :
    off + 14 ≤ data.length ∧
      ∀ p, op = some p →
        p.returnNumber = rn ∧
          ¬(p.x = 0 ∧ p.y = 0 ∧ p.z = 0 ∧ p.intensity = 0) := by
  unfold decodeSub at h
  dsimp only at h
  split at h
  · exact absurd h (by simp)
  next r h12 =>
    split at h
    · exact absurd h (by simp)
    next t h13 =>
      have hlt := getByte_ok_lt h13
      refine ⟨by omega, ?_⟩
      split at h
      next hc =>
        intro p hp
        have hop : op = none := by
          injection h with h2
          exact h2.symm
        rw [hop] at hp
        simp at hp
      next hc =>
        intro p hp
        have hop : op = some ⟨fromBytesSigned (sliceBytes data off (off + 4)),
            fromBytesSigned (sliceBytes data (off + 4) (off + 8)),
            fromBytesSigned (sliceBytes data (off + 8) (off + 12)), r, rn⟩ := by
          injection h with h2
          exact h2.symm
        rw [hop] at hp
        injection hp with hp
        subst hp
        exact ⟨rfl, by simpa using hc⟩

theorem decodeSingleLoop_ok_elim {data : List Nat} :
    ∀ {n off pts off2}, decodeSingleLoop data off n = .ok (pts, off2) →
      off2 = off + 14 * n ∧
      (0 < n → off + 14 * n ≤ data.length) ∧
      ∀ p ∈ pts, p.returnNumber = 1 ∧
        ¬(p.x = 0 ∧ p.y = 0 ∧ p.z = 0 ∧ p.intensity = 0) := by
  intro n
  induction n with
  | zero =>
    intro off pts off2 h
    unfold decodeSingleLoop at h
    simp only [Except.ok.injEq, Prod.mk.injEq] at h
    obtain ⟨h1, h2⟩ := h
    refine ⟨by omega, by omega, ?_⟩
    intro p hp
    rw [← h1] at hp
    simp at hp
  | succ n ih =>
    intro off pts off2 h
    unfold decodeSingleLoop at h
    cases hs : decodeSub data off 1 with
    | error e => rw [hs] at h; simp at h
    | ok p =>
      rw [hs] at h
      cases hl : decodeSingleLoop data (off + 14) n with
      | error e => rw [hl] at h; simp at h
      | ok pr =>
        obtain ⟨rest, o2⟩ := pr
        rw [hl] at h
        simp only [Except.ok.injEq, Prod.mk.injEq] at h
        obtain ⟨hpts, hoff⟩ := h
        obtain ⟨ho2, hbnd, hmem⟩ := ih hl
        obtain ⟨hsub_len, hsub⟩ := decodeSub_ok_elim hs
        refine ⟨by omega, ?_, ?_⟩
        · intro _
          rcases Nat.eq_zero_or_pos n with hn | hn
          · omega
          · have := hbnd hn; omega
        · intro p' hp'
          rw [← hpts] at hp'
          rcases List.mem_append.mp hp' with hp1 | hp2
          · cases p with
            | none => simp at hp1
            | some q =>
              simp at hp1
              rw [hp1]
              exact hsub q rfl
          · exact hmem p' hp2

theorem decodeDoubleLoop_ok_elim {data : List Nat} :
    ∀ {n off pts off2}, decodeDoubleLoop data off n = .ok (pts, off2) →
      off2 = off + 28 * n ∧
      (0 < n → off + 28 * n ≤ data.length) ∧
      ∀ p ∈ pts, (p.returnNumber = 1 ∨ p.returnNumber = 2) ∧
        ¬(p.x = 0 ∧ p.y = 0 ∧ p.z = 0 ∧ p.intensity = 0) := by
  intro n
  induction n with
  | zero =>
    intro off pts off2 h
    unfold decodeDoubleLoop at h
    simp only [Except.ok.injEq, Prod.mk.injEq] at h
    obtain ⟨h1, h2⟩ := h
    refine ⟨by omega, by omega, ?_⟩
    intro p hp
    rw [← h1] at hp
    simp at hp
  | succ n ih =>
    intro off pts off2 h
    unfold decodeDoubleLoop at h
    cases hs1 : decodeSub data off 1 with
    | error e => rw [hs1] at h; simp at h
    | ok p1 =>
      rw [hs1] at h
      cases hs2 : decodeSub data (off + 14) 2 with
      | error e => rw [hs2] at h; simp at h
      | ok p2 =>
        rw [hs2] at h
        cases hl : decodeDoubleLoop data (off + 28) n with
        | error e => rw [hl] at h; simp at h
        | ok pr =>
          obtain ⟨rest, o2⟩ := pr
          rw [hl] at h
          simp only [Except.ok.injEq, Prod.mk.injEq] at h
          obtain ⟨hpts, hoff⟩ := h
          obtain ⟨ho2, hbnd, hmem⟩ := ih hl
          obtain ⟨hsub_len1, hsub1⟩ := decodeSub_ok_elim hs1
          obtain ⟨hsub_len2, hsub2⟩ := decodeSub_ok_elim hs2
          refine ⟨by omega, ?_, ?_⟩
          · intro _
            rcases Nat.eq_zero_or_pos n with hn | hn
            · omega
            · have := hbnd hn; omega
          · intro p' hp'
            rw [← hpts] at hp'
            simp only [List.mem_append] at hp'
            rcases hp' with (hp1 | hp2) | hp3
            · have hq : p1 = some p' := by simpa using hp1
              obtain ⟨hq1, hq2⟩ := hsub1 p' hq
              exact ⟨Or.inl hq1, hq2⟩
            · have hq : p2 = some p' := by simpa using hp2
              obtain ⟨hq1, hq2⟩ := hsub2 p' hq
              exact ⟨Or.inr hq1, hq2⟩
            · exact hmem p' hp3

theorem decodeTripleLoop_ok_elim {data : List Nat} :
    ∀ {n off pts off2}, decodeTripleLoop data off n = .ok (pts, off2) →
      off2 = off + 42 * n ∧
      (0 < n → off + 42 * n ≤ data.length) ∧
      ∀ p ∈ pts, (p.returnNumber = 1 ∨ p.returnNumber = 2 ∨ p.returnNumber = 3) ∧
        ¬(p.x = 0 ∧ p.y = 0 ∧ p.z = 0 ∧ p.intensity = 0) := by
  intro n
  induction n with
  | zero =>
    intro off pts off2 h
    unfold decodeTripleLoop at h
    simp only [Except.ok.injEq, Prod.mk.injEq] at h
    obtain ⟨h1, h2⟩ := h
    refine ⟨by omega, by omega, ?_⟩
    intro p hp
    rw [← h1] at hp
    simp at hp
  | succ n ih =>
    intro off pts off2 h
    unfold decodeTripleLoop at h
    cases hs1 : decodeSub data off 1 with
    | error e => rw [hs1] at h; simp at h
    | ok p1 =>
      rw [hs1] at h
      cases hs2 : decodeSub data (off + 14) 2 with
      | error e => rw [hs2] at h; simp at h
      | ok p2 =>
        rw [hs2] at h
        cases hs3 : decodeSub data (off + 28) 3 with
        | error e => rw [hs3] at h; simp at h
        | ok p3 =>
          rw [hs3] at h
          cases hl : decodeTripleLoop data (off + 42) n with
          | error e => rw [hl] at h; simp at h
          | ok pr =>
            obtain ⟨rest, o2⟩ := pr
            rw [hl] at h
            simp only [Except.ok.injEq, Prod.mk.injEq] at h
            obtain ⟨hpts, hoff⟩ := h
            obtain ⟨ho2, hbnd, hmem⟩ := ih hl
            obtain ⟨hsub_len1, hsub1⟩ := decodeSub_ok_elim hs1
            obtain ⟨hsub_len2, hsub2⟩ := decodeSub_ok_elim hs2
            obtain ⟨hsub_len3, hsub3⟩ := decodeSub_ok_elim hs3
            refine ⟨by omega, ?_, ?_⟩
            · intro _
              rcases Nat.eq_zero_or_pos n with hn | hn
              · omega
              · have := hbnd hn; omega
            · intro p' hp'
              rw [← hpts] at hp'
              simp only [List.mem_append] at hp'
              rcases hp' with ((hp1 | hp2) | hp3) | hp4
              · have hq : p1 = some p' := by simpa using hp1
                obtain ⟨hq1, hq2⟩ := hsub1 p' hq
                exact ⟨Or.inl hq1, hq2⟩
              · have hq : p2 = some p' := by simpa using hp2
                obtain ⟨hq1, hq2⟩ := hsub2 p' hq
                exact ⟨Or.inr (Or.inl hq1), hq2⟩
              · have hq : p3 = some p' := by simpa using hp3
                obtain ⟨hq1, hq2⟩ := hsub3 p' hq
                exact ⟨Or.inr (Or.inr hq1), hq2⟩
              · exact hmem p' hp4

theorem pp_ok_elim {data : List Nat} {offset : Nat} {pts : List PointSample}
    {imu : Option ImuRecord} {off2 : Nat}
    (h : process_package data offset = .ok (pts, imu, off2)) :
    ∃ dt ts, readPkgHeader data offset = .ok (dt, ts) ∧
      ((dt = 2 ∧ decodeSingleLoop data (offset + 19) 96 = .ok (pts, off2) ∧ imu = none) ∨
       (dt = 4 ∧ decodeDoubleLoop data (offset + 19) 48 = .ok (pts, off2) ∧ imu = none) ∨
       (dt = 7 ∧ decodeTripleLoop data (offset + 19) 30 = .ok (pts, off2) ∧ imu = none) ∨
       (dt = 6 ∧ pts = [] ∧ off2 = offset + 19 + 24 ∧
         ∃ raw, unpackExact data (offset + 19) 24 = .ok raw ∧ imu = some ⟨ts, raw⟩) ∨
       (dt ≠ 2 ∧ dt ≠ 4 ∧ dt ≠ 7 ∧ dt ≠ 6 ∧ pts = [] ∧ imu = none ∧
         off2 = offset + 19 + 24)) := by
  unfold process_package at h
  split at h
  · exact absurd h (by simp)
  next dt ts hh =>
    refine ⟨dt, ts, hh, ?_⟩
    by_cases h2 : dt = 2
    · rw [if_pos h2] at h
      split at h
      · exact absurd h (by simp)
      next pts' o2 hl =>
        simp only [Except.ok.injEq, Prod.mk.injEq] at h
        obtain ⟨ha, hb, hc⟩ := h
        exact Or.inl ⟨h2, by rw [← ha, ← hc]; exact hl, hb.symm⟩
    · rw [if_neg h2] at h
      by_cases h4 : dt = 4
      · rw [if_pos h4] at h
        split at h
        · exact absurd h (by simp)
        next pts' o2 hl =>
          simp only [Except.ok.injEq, Prod.mk.injEq] at h
          obtain ⟨ha, hb, hc⟩ := h
          exact Or.inr (Or.inl ⟨h4, by rw [← ha, ← hc]; exact hl, hb.symm⟩)
      · rw [if_neg h4] at h
        by_cases h7 : dt = 7
        · rw [if_pos h7] at h
          split at h
          · exact absurd h (by simp)
          next pts' o2 hl =>
            simp only [Except.ok.injEq, Prod.mk.injEq] at h
            obtain ⟨ha, hb, hc⟩ := h
            exact Or.inr (Or.inr (Or.inl ⟨h7, by rw [← ha, ← hc]; exact hl, hb.symm⟩))
        · rw [if_neg h7] at h
          by_cases h6 : dt = 6
          · rw [if_pos h6] at h
            split at h
            · exact absurd h (by simp)
            next raw hu =>
              simp only [Except.ok.injEq, Prod.mk.injEq] at h
              obtain ⟨ha, hb, hc⟩ := h
              exact Or.inr (Or.inr (Or.inr (Or.inl
                ⟨h6, ha.symm, hc.symm, raw, hu, hb.symm⟩)))
          · rw [if_neg h6] at h
            simp only [Except.ok.injEq, Prod.mk.injEq] at h
            obtain ⟨ha, hb, hc⟩ := h
            exact Or.inr (Or.inr (Or.inr (Or.inr
              ⟨h2, h4, h7, h6, ha.symm, hb.symm, hc.symm⟩)))

/-- On success, process_package advances the offset by exactly 19 header bytes
plus the fixed payload size selected by the data_type byte at offset + 10. -/
theorem pp_newOffset {data : List Nat} {offset : Nat} {pts : List PointSample}
    {imu : Option ImuRecord} {off2 dt : Nat}
    (h : process_package data offset = .ok (pts, imu, off2))
    (hdt : data.get? (offset + 10) = some dt) :
    off2 = offset + 19 + payloadSize dt := by
  obtain ⟨dt', ts, hh, hbr⟩ := pp_ok_elim h
  obtain ⟨-, hdt'⟩ := readPkgHeader_ok_elim hh
  rw [hdt] at hdt'
  injection hdt' with hdd
  subst hdd
  rcases hbr with ⟨he, hl, -⟩ | ⟨he, hl, -⟩ | ⟨he, hl, -⟩ | ⟨he, -, ho, -⟩ |
    ⟨h2, h4, h7, h6, -, -, ho⟩
  · obtain ⟨ho, -, -⟩ := decodeSingleLoop_ok_elim hl
    subst he; simp [payloadSize]; omega
  · obtain ⟨ho, -, -⟩ := decodeDoubleLoop_ok_elim hl
    subst he; simp [payloadSize]; omega
  · obtain ⟨ho, -, -⟩ := decodeTripleLoop_ok_elim hl
    subst he; simp [payloadSize]; omega
  · subst he; simp [payloadSize]; omega
  · simp [payloadSize, h2, h4, h7]; omega

/-- On success, process_package strictly advances the offset by at least
19 + 24 = 43 bytes. -/
theorem pp_off_ge {data : List Nat} {offset : Nat} {pts : List PointSample}
    {imu : Option ImuRecord} {off2 : Nat}
    (h : process_package data offset = .ok (pts, imu, off2)) :
    offset + 43 ≤ off2 := by
  obtain ⟨dt, ts, hh, hbr⟩ := pp_ok_elim h
  rcases hbr with ⟨-, hl, -⟩ | ⟨-, hl, -⟩ | ⟨-, hl, -⟩ | ⟨-, -, ho, -⟩ |
    ⟨-, -, -, -, -, -, ho⟩
  · obtain ⟨ho, -, -⟩ := decodeSingleLoop_ok_elim hl; omega
  · obtain ⟨ho, -, -⟩ := decodeDoubleLoop_ok_elim hl; omega
  · obtain ⟨ho, -, -⟩ := decodeTripleLoop_ok_elim hl; omega
  · omega
  · omega

/-- Every point emitted by process_package is non-sentinel and carries a
positional return number in 1..3. -/
theorem pp_points {data : List Nat} {offset : Nat} {pts : List PointSample}
    {imu : Option ImuRecord} {off2 : Nat}
    (h : process_package data offset = .ok (pts, imu, off2)) :
    ∀ p ∈ pts, (p.returnNumber = 1 ∨ p.returnNumber = 2 ∨ p.returnNumber = 3) ∧
      ¬(p.x = 0 ∧ p.y = 0 ∧ p.z = 0 ∧ p.intensity = 0) := by
  obtain ⟨dt, ts, hh, hbr⟩ := pp_ok_elim h
  rcases hbr with ⟨-, hl, -⟩ | ⟨-, hl, -⟩ | ⟨-, hl, -⟩ | ⟨-, hp, -, -⟩ |
    ⟨-, -, -, -, hp, -, -⟩
  · obtain ⟨-, -, hm⟩ := decodeSingleLoop_ok_elim hl
    intro p hpp
    obtain ⟨h1, h2⟩ := hm p hpp
    exact ⟨Or.inl h1, h2⟩
  · obtain ⟨-, -, hm⟩ := decodeDoubleLoop_ok_elim hl
    intro p hpp
    obtain ⟨h1, h2⟩ := hm p hpp
    rcases h1 with h1 | h1
    · exact ⟨Or.inl h1, h2⟩
    · exact ⟨Or.inr (Or.inl h1), h2⟩
  · obtain ⟨-, -, hm⟩ := decodeTripleLoop_ok_elim hl
    intro p hpp
    obtain ⟨h1, h2⟩ := hm p hpp
    exact ⟨h1, h2⟩
  · subst hp; intro p hpp; simp at hpp
  · subst hp; intro p hpp; simp at hpp

/-- Per data_type return-number discipline of process_package. -/
theorem pp_points_perType {data : List Nat} {offset : Nat} {pts : List PointSample}
    {imu : Option ImuRecord} {off2 dt : Nat}
    (h : process_package data offset = .ok (pts, imu, off2))
    (hdt : data.get? (offset + 10) = some dt) :
    (dt = 2 → ∀ p ∈ pts, p.returnNumber = 1) ∧
    (dt = 4 → ∀ p ∈ pts, p.returnNumber = 1 ∨ p.returnNumber = 2) := by
  obtain ⟨dt', ts, hh, hbr⟩ := pp_ok_elim h
  obtain ⟨-, hdt'⟩ := readPkgHeader_ok_elim hh
  rw [hdt] at hdt'
  injection hdt' with hdd
  subst hdd
  rcases hbr with ⟨he, hl, -⟩ | ⟨he, hl, -⟩ | ⟨he, hl, -⟩ | ⟨he, hp, -, -⟩ |
    ⟨h2, h4, h7, h6, hp, -, -⟩
  · obtain ⟨-, -, hm⟩ := decodeSingleLoop_ok_elim hl
    subst he
    exact ⟨fun _ p hpp => (hm p hpp).1, fun hdt4 => by norm_num at hdt4⟩
  · obtain ⟨-, -, hm⟩ := decodeDoubleLoop_ok_elim hl
    subst he
    exact ⟨fun hdt2 => by norm_num at hdt2, fun _ p hpp => (hm p hpp).1⟩
  · subst he
    exact ⟨fun hdt2 => by norm_num at hdt2, fun hdt4 => by norm_num at hdt4⟩
  · subst hp
    exact ⟨fun _ p hpp => by simp at hpp, fun _ p hpp => by simp at hpp⟩
  · subst hp
    exact ⟨fun _ p hpp => by simp at hpp, fun _ p hpp => by simp at hpp⟩

/-- On success the whole computed read range of the known data types lies
inside the buffer: the 19-byte header always, and the full fixed payload for
data types 2, 4, 7 and 6 (the unknown-type branch advances without reading). -/
theorem pp_bounds {data : List Nat} {offset : Nat} {pts : List PointSample}
    {imu : Option ImuRecord} {off2 dt : Nat}
    (h : process_package data offset = .ok (pts, imu, off2))
    (hdt : data.get? (offset + 10) = some dt) :
    offset + 19 ≤ data.length ∧
    (dt = 2 → offset + 1363 ≤ data.length) ∧
    (dt = 4 → offset + 1363 ≤ data.length) ∧
    (dt = 7 → offset + 1279 ≤ data.length) ∧
    (dt = 6 → offset + 43 ≤ data.length) := by
  obtain ⟨dt', ts, hh, hbr⟩ := pp_ok_elim h
  obtain ⟨hlen, hdt'⟩ := readPkgHeader_ok_elim hh
  rw [hdt] at hdt'
  injection hdt' with hdd
  subst hdd
  refine ⟨hlen, ?_, ?_, ?_, ?_⟩ <;> intro he <;> subst he
  · rcases hbr with ⟨-, hl, -⟩ | ⟨hne, -, -⟩ | ⟨hne, -, -⟩ | ⟨hne, -, -, -⟩ |
      ⟨hne, -, -, -, -, -, -⟩
    · obtain ⟨-, hb, -⟩ := decodeSingleLoop_ok_elim hl
      have := hb (by norm_num)
      omega
    all_goals norm_num at hne
  · rcases hbr with ⟨hne, -, -⟩ | ⟨-, hl, -⟩ | ⟨hne, -, -⟩ | ⟨hne, -, -, -⟩ |
      ⟨-, hne, -, -, -, -, -⟩
    · norm_num at hne
    · obtain ⟨-, hb, -⟩ := decodeDoubleLoop_ok_elim hl
      have := hb (by norm_num)
      omega
    all_goals norm_num at hne
  · rcases hbr with ⟨hne, -, -⟩ | ⟨hne, -, -⟩ | ⟨-, hl, -⟩ | ⟨hne, -, -, -⟩ |
      ⟨-, -, hne, -, -, -, -⟩
    · norm_num at hne
    · norm_num at hne
    · obtain ⟨-, hb, -⟩ := decodeTripleLoop_ok_elim hl
      have := hb (by norm_num)
      omega
    all_goals norm_num at hne
  · rcases hbr with ⟨hne, -, -⟩ | ⟨hne, -, -⟩ | ⟨hne, -, -⟩ | ⟨-, -, -, raw, hu, -⟩ |
      ⟨-, -, -, hne, -, -, -⟩
    · norm_num at hne
    · norm_num at hne
    · norm_num at hne
    · rw [unpackExact_ok_iff (by norm_num)] at hu
      omega
    · norm_num at hne

/-- The body of the while loop of process_frame, written with an explicit
iteration bound (fuel): while the running offset is below frame_end, decode
one package, accumulate its points and IMU record, and continue at the new
offset; a package error propagates.  The fuel only bounds the number of
iterations: every successful package decode advances the offset by at least
43 bytes, so any fuel larger than frame_end - offset makes the fuel-0 case
unreachable (process_frameF_congr below makes that precise), and
process_frame instantiates the fuel accordingly. -/
def process_frameF (data : List Nat) (frame_end : Nat) :
    Nat → Nat → Except PyErr (List PointSample × List ImuRecord × Nat)
  | 0, offset => .ok ([], [], offset)
  | fuel + 1, offset =>
    if offset < frame_end then
      match process_package data offset with
      | .error e => .error e
      | .ok (pts, imu, off2) =>
        match process_frameF data frame_end fuel off2 with
        | .error e => .error e
        | .ok (fpts, fimu, off3) => .ok (pts ++ fpts, imu.toList ++ fimu, off3)
    else .ok ([], [], offset)

/-- The result of process_frameF does not depend on the fuel, as long as the
fuel exceeds frame_end - offset (which the loop, advancing by at least 43
bytes per package, can never exhaust). -/
theorem process_frameF_congr (data : List Nat) (fe : Nat) :
    ∀ f1 f2 offset, fe - offset < f1 → fe - offset < f2 →
      process_frameF data fe f1 offset = process_frameF data fe f2 offset := by
  intro f1
  induction f1 with
  | zero =>
    intro f2 offset h1 h2
    omega
  | succ n ih =>
    intro f2 offset h1 h2
    cases f2 with
    | zero => omega
    | succ m =>
      simp only [process_frameF]
      by_cases hlt : offset < fe
      · rw [if_pos hlt, if_pos hlt]
        cases hp : process_package data offset with
        | error e => rfl
        | ok r =>
          obtain ⟨pts, imu, off2⟩ := r
          dsimp only
          have h43 := pp_off_ge hp
          have hrec : process_frameF data fe n off2 = process_frameF data fe m off2 :=
            ih m off2 (by omega) (by omega)
          rw [hrec]
      · rw [if_neg hlt, if_neg hlt]

/-- process_frame(data, offset, frame_end): repeatedly decode packages while
the running offset is below frame_end, accumulating the points and IMU
records of all packages of the frame; a package error propagates.  The
characteristic recurrence is process_frame_eq below. -/
def process_frame (data : List Nat) (offset frame_end : Nat) :
    Except PyErr (List PointSample × List ImuRecord × Nat) :=
  process_frameF data frame_end (frame_end - offset + 1) offset

/-- One-step unfolding of process_frame: exactly the while loop of the
source (lines 110-115). -/
theorem process_frame_eq (data : List Nat) (offset frame_end : Nat) :
    process_frame data offset frame_end =
      if offset < frame_end then
        match process_package data offset with
        | .error e => .error e
        | .ok (pts, imu, off2) =>
          match process_frame data off2 frame_end with
          | .error e => .error e
          | .ok (fpts, fimu, off3) => .ok (pts ++ fpts, imu.toList ++ fimu, off3)
      else .ok ([], [], offset) := by
  show process_frameF data frame_end (frame_end - offset + 1) offset = _
  simp only [process_frameF]
  by_cases hlt : offset < frame_end
  · rw [if_pos hlt, if_pos hlt]
    cases hp : process_package data offset with
    | error e => rfl
    | ok r =>
      obtain ⟨pts, imu, off2⟩ := r
      dsimp only
      have h43 := pp_off_ge hp
      have hrec : process_frameF data frame_end (frame_end - offset) off2 =
          process_frameF data frame_end (frame_end - off2 + 1) off2 :=
        process_frameF_congr data frame_end _ _ off2 (by omega) (by omega)
      rw [hrec]
      rfl
  · rw [if_neg hlt, if_neg hlt]

/-- process_frame never moves the cursor backwards. -/
theorem process_frame_le {data : List Nat} :
    ∀ {frame_end offset : Nat} {pts : List PointSample} {imus : List ImuRecord}
      {off2 : Nat},
      process_frame data offset frame_end = .ok (pts, imus, off2) → offset ≤ off2 := by
  intro fe
  suffices H : ∀ k offset pts imus off2, fe - offset ≤ k →
      process_frame data offset fe = .ok (pts, imus, off2) → offset ≤ off2 by
    intro offset pts imus off2 h
    exact H (fe - offset) offset pts imus off2 le_rfl h
  intro k
  induction k with
  | zero =>
    intro offset pts imus off2 hk h
    rw [process_frame_eq] at h
    rw [if_neg (by omega)] at h
    simp only [Except.ok.injEq, Prod.mk.injEq] at h
    omega
  | succ k ih =>
    intro offset pts imus off2 hk h
    rw [process_frame_eq] at h
    by_cases hlt : offset < fe
    · rw [if_pos hlt] at h
      split at h
      · exact absurd h (by simp)
      next pts1 imu1 o2 hp =>
        split at h
        · exact absurd h (by simp)
        next fpts fimu off3 hf =>
          simp only [Except.ok.injEq, Prod.mk.injEq] at h
          have h43 := pp_off_ge hp
          have := ih o2 fpts fimu off3 (by omega) hf
          omega
    · rw [if_neg hlt] at h
      simp only [Except.ok.injEq, Prod.mk.injEq] at h
      omega

/-- Every point accumulated by process_frame is non-sentinel and carries a
return number in 1..3 (it comes from some successful package decode). -/
theorem process_frame_points {data : List Nat} :
    ∀ {frame_end offset : Nat} {pts : List PointSample} {imus : List ImuRecord}
      {off2 : Nat},
      process_frame data offset frame_end = .ok (pts, imus, off2) →
      ∀ p ∈ pts, (p.returnNumber = 1 ∨ p.returnNumber = 2 ∨ p.returnNumber = 3) ∧
        ¬(p.x = 0 ∧ p.y = 0 ∧ p.z = 0 ∧ p.intensity = 0) := by
  intro fe
  suffices H : ∀ k offset pts imus off2, fe - offset ≤ k →
      process_frame data offset fe = .ok (pts, imus, off2) →
      ∀ p ∈ pts, (p.returnNumber = 1 ∨ p.returnNumber = 2 ∨ p.returnNumber = 3) ∧
        ¬(p.x = 0 ∧ p.y = 0 ∧ p.z = 0 ∧ p.intensity = 0) by
    intro offset pts imus off2 h
    exact H (fe - offset) offset pts imus off2 le_rfl h
  intro k
  induction k with
  | zero =>
    intro offset pts imus off2 hk h
    rw [process_frame_eq] at h
    rw [if_neg (by omega)] at h
    simp only [Except.ok.injEq, Prod.mk.injEq] at h
    obtain ⟨h1, -, -⟩ := h
    intro p hp
    rw [← h1] at hp
    simp at hp
  | succ k ih =>
    intro offset pts imus off2 hk h
    rw [process_frame_eq] at h
    by_cases hlt : offset < fe
    · rw [if_pos hlt] at h
      split at h
      · exact absurd h (by simp)
      next pts1 imu1 o2 hp =>
        split at h
        · exact absurd h (by simp)
        next fpts fimu off3 hf =>
          simp only [Except.ok.injEq, Prod.mk.injEq] at h
          obtain ⟨h1, -, -⟩ := h
          have h43 := pp_off_ge hp
          have hrec := ih o2 fpts fimu off3 (by omega) hf
          have hpkg := pp_points hp
          intro p hpmem
          rw [← h1] at hpmem
          rcases List.mem_append.mp hpmem with hm | hm
          · exact hpkg p hm
          · exact hrec p hm
    · rw [if_neg hlt] at h
      simp only [Except.ok.injEq, Prod.mk.injEq] at h
      obtain ⟨h1, -, -⟩ := h
      intro p hp
      rw [← h1] at hp
      simp at hp

/-- One emitted chunk: what one flush hands to the output collaborators
(create_las_from_points and write_imu_csv): chunk index, points, IMU data. -/
structure ChunkOut where
  index : Nat
  points : List PointSample
  imu : List ImuRecord
deriving DecidableEq

/-- The mutable local state of the frame loop of process_lvx: byte cursor,
frame counter, chunk counter, per-chunk accumulation buffers, the
file-scoped overall-IMU collection, the mode-0 whole-file accumulators, and
the sequence of chunks emitted so far (modelling the output calls in
order). -/
structure LoopState where
  offset : Nat
  totalFrames : Nat
  chunkIndex : Nat
  chunkPoints : List PointSample
  chunkImu : List ImuRecord
  overallImu : List ImuRecord
  allPoints : List PointSample
  allImu : List ImuRecord
  chunks : List ChunkOut
deriving DecidableEq

/-- The loop variables of process_lvx at entry of the frame loop, with the
cursor at the first frame header. -/
def initState (o : Nat) : LoopState :=
  ⟨o, 0, 0, [], [], [], [], [], []⟩

/-- Total point count over a list of emitted chunks. -/
def chunkSum (cs : List ChunkOut) : Nat :=
  (cs.map (fun c => c.points.length)).sum

/-- The body of the frame loop of process_lvx (source lines 177-204),
written with an explicit iteration bound (fuel).  While at least one byte
remains: break if fewer than 24 bytes remain; otherwise read the three u64
frame-header fields current_offset, next_offset, frame_index (the three
struct.unpack calls cannot fail under the 24-byte guard, so next_offset is
read as a plain slice; current_offset and frame_index are read but unused by
the source), process the frame up to next_offset, then update the
accumulators: with frames_per_output = 0 everything accumulates file-wide;
otherwise the chunk buffers grow and are flushed as one emitted chunk when
the frame count is a multiple of frames_per_output or the cursor has reached
the end of the buffer.  The fuel only bounds the number of iterations: each
one advances the cursor by at least 24 bytes, so any fuel larger than
data.length - s.offset makes the fuel-0 case unreachable (lvxLoopF_congr
below makes that precise), and lvxLoop instantiates the fuel accordingly. -/
def lvxLoopF (data : List Nat) (fpo : Nat) : Nat → LoopState → Except PyErr LoopState
  | 0, s => .ok s
  | fuel + 1, s =>
    if s.offset < data.length then
      if data.length < s.offset + 24 then .ok s
      else
        match process_frame data (s.offset + 24)
            (leBytes (sliceBytes data (s.offset + 8) (s.offset + 16))) with
        | .error e => .error e
        | .ok (fpts, fimu, off2) =>
          if fpo = 0 then
            lvxLoopF data fpo fuel { s with
              offset := off2
              totalFrames := s.totalFrames + 1
              allPoints := s.allPoints ++ fpts
              allImu := s.allImu ++ fimu }
          else
            if (s.totalFrames + 1) % fpo = 0 ∨ data.length ≤ off2 then
              lvxLoopF data fpo fuel {
                offset := off2
                totalFrames := s.totalFrames + 1
                chunkIndex := s.chunkIndex + 1
                chunkPoints := []
                chunkImu := []
                overallImu := s.overallImu ++ fimu
                allPoints := s.allPoints
                allImu := s.allImu
                chunks := s.chunks ++
                  [⟨s.chunkIndex, s.chunkPoints ++ fpts, s.chunkImu ++ fimu⟩] }
            else
              lvxLoopF data fpo fuel { s with
                offset := off2
                totalFrames := s.totalFrames + 1
                chunkPoints := s.chunkPoints ++ fpts
                chunkImu := s.chunkImu ++ fimu
                overallImu := s.overallImu ++ fimu }
    else .ok s

/-- The result of lvxLoopF does not depend on the fuel, as long as the fuel
exceeds data.length - s.offset (each iteration advances the cursor by at
least the 24 frame-header bytes, so the loop can never exhaust it). -/
theorem lvxLoopF_congr (data : List Nat) (fpo : Nat) :
    ∀ f1 f2 (s : LoopState), data.length - s.offset < f1 →
      data.length - s.offset < f2 →
      lvxLoopF data fpo f1 s = lvxLoopF data fpo f2 s := by
  intro f1
  induction f1 with
  | zero =>
    intro f2 s h1 h2
    omega
  | succ n ih =>
    intro f2 s h1 h2
    cases f2 with
    | zero => omega
    | succ m =>
      simp only [lvxLoopF]
      by_cases hlt : s.offset < data.length
      · rw [if_pos hlt, if_pos hlt]
        by_cases hbrk : data.length < s.offset + 24
        · rw [if_pos hbrk, if_pos hbrk]
        · rw [if_neg hbrk, if_neg hbrk]
          cases hf : process_frame data (s.offset + 24)
              (leBytes (sliceBytes data (s.offset + 8) (s.offset + 16))) with
          | error e => rfl
          | ok r =>
            obtain ⟨fpts, fimu, off2⟩ := r
            dsimp only
            have hoff : s.offset + 24 ≤ off2 := process_frame_le hf
            by_cases hz : fpo = 0
            · rw [if_pos hz, if_pos hz]
              exact ih m _ (by show data.length - off2 < n; omega)
                (by show data.length - off2 < m; omega)
            · rw [if_neg hz, if_neg hz]
              by_cases hfl : (s.totalFrames + 1) % fpo = 0 ∨ data.length ≤ off2
              · rw [if_pos hfl, if_pos hfl]
                exact ih m _ (by show data.length - off2 < n; omega)
                  (by show data.length - off2 < m; omega)
              · rw [if_neg hfl, if_neg hfl]
                exact ih m _ (by show data.length - off2 < n; omega)
                  (by show data.length - off2 < m; omega)
      · rw [if_neg hlt, if_neg hlt]

/-- The frame loop of process_lvx, at its characteristic recurrence
(lvxLoop_eq below). -/
def lvxLoop (data : List Nat) (fpo : Nat) (s : LoopState) : Except PyErr LoopState :=
  lvxLoopF data fpo (data.length - s.offset + 1) s

/-- One-step unfolding of lvxLoop: exactly one iteration of the frame loop
of the source. -/
theorem lvxLoop_eq (data : List Nat) (fpo : Nat) (s : LoopState) :
    lvxLoop data fpo s =
      if s.offset < data.length then
        if data.length < s.offset + 24 then .ok s
        else
          match process_frame data (s.offset + 24)
              (leBytes (sliceBytes data (s.offset + 8) (s.offset + 16))) with
          | .error e => .error e
          | .ok (fpts, fimu, off2) =>
            if fpo = 0 then
              lvxLoop data fpo { s with
                offset := off2
                totalFrames := s.totalFrames + 1
                allPoints := s.allPoints ++ fpts
                allImu := s.allImu ++ fimu }
            else
              if (s.totalFrames + 1) % fpo = 0 ∨ data.length ≤ off2 then
                lvxLoop data fpo {
                  offset := off2
                  totalFrames := s.totalFrames + 1
                  chunkIndex := s.chunkIndex + 1
                  chunkPoints := []
                  chunkImu := []
                  overallImu := s.overallImu ++ fimu
                  allPoints := s.allPoints
                  allImu := s.allImu
                  chunks := s.chunks ++
                    [⟨s.chunkIndex, s.chunkPoints ++ fpts, s.chunkImu ++ fimu⟩] }
              else
                lvxLoop data fpo { s with
                  offset := off2
                  totalFrames := s.totalFrames + 1
                  chunkPoints := s.chunkPoints ++ fpts
                  chunkImu := s.chunkImu ++ fimu
                  overallImu := s.overallImu ++ fimu }
      else .ok s := by
  show lvxLoopF data fpo (data.length - s.offset + 1) s = _
  simp only [lvxLoopF]
  by_cases hlt : s.offset < data.length
  · rw [if_pos hlt, if_pos hlt]
    by_cases hbrk : data.length < s.offset + 24
    · rw [if_pos hbrk, if_pos hbrk]
    · rw [if_neg hbrk, if_neg hbrk]
      cases hf : process_frame data (s.offset + 24)
          (leBytes (sliceBytes data (s.offset + 8) (s.offset + 16))) with
      | error e => rfl
      | ok r =>
        obtain ⟨fpts, fimu, off2⟩ := r
        dsimp only
        have hoff : s.offset + 24 ≤ off2 := process_frame_le hf
        by_cases hz : fpo = 0
        · rw [if_pos hz, if_pos hz]
          exact lvxLoopF_congr data fpo _ _ _
            (by show data.length - off2 < data.length - s.offset; omega)
            (by show data.length - off2 < data.length - off2 + 1; omega)
        · rw [if_neg hz, if_neg hz]
          by_cases hfl : (s.totalFrames + 1) % fpo = 0 ∨ data.length ≤ off2
          · rw [if_pos hfl, if_pos hfl]
            exact lvxLoopF_congr data fpo _ _ _
              (by show data.length - off2 < data.length - s.offset; omega)
              (by show data.length - off2 < data.length - off2 + 1; omega)
          · rw [if_neg hfl, if_neg hfl]
            exact lvxLoopF_congr data fpo _ _ _
              (by show data.length - off2 < data.length - s.offset; omega)
              (by show data.length - off2 < data.length - off2 + 1; omega)
  · rw [if_neg hlt, if_neg hlt]

/-- The header part of process_lvx (source lines 160-165): skip the 24-byte
public header, read frame_duration (u32) and device_count (u8), and compute
the byte offset where frame data begins.  Returns (frame_duration,
device_count, first frame offset). -/
def parseLvxHeader (data : List Nat) : Except PyErr (Nat × Nat × Nat) := do
  let fdB ← unpackExact data 24 4
  let dc ← getByte data 28
  return (leBytes fdB, dc, 24 + 4 + 1 + dc * 59)

/-- process_lvx(data, frames_per_output): header parse, frame loop from the
post-header offset, then the frames_per_output = 0 final flush (source lines
206-212), which emits all accumulated points and IMU records as one output
and makes the overall-IMU collection the whole-file IMU list.  Returns the
emitted chunks in order and the overall-IMU collection written at the end. -/
def process_lvx (data : List Nat) (fpo : Nat) :
    Except PyErr (List ChunkOut × List ImuRecord) := do
  let hdr ← parseLvxHeader data
  let s ← lvxLoop data fpo (initState hdr.2.2)
  if fpo = 0 then
    return ([⟨0, s.allPoints, s.allImu⟩], s.allImu)
  else
    return (s.chunks, s.overallImu)

/-- The batch loop of main (source lines 232-236): process each capture file
in order.  The source has no try/except, so an exception raised while
processing one file propagates and aborts the whole batch. -/
def runBatch (files : List (List Nat)) (fpo : Nat) :
    Except PyErr (List (List ChunkOut × List ImuRecord)) :=
  match files with
  | [] => .ok []
  | f :: rest => do
    let r ← process_lvx f fpo
    let rs ← runBatch rest fpo
    return (r :: rs)

theorem bind_ok_apply {α β : Type} (a : α) (f : α → Except PyErr β) :
    ((Except.ok a : Except PyErr α) >>= f) = f a := rfl

theorem bind_error_apply {α β : Type} (e : PyErr) (f : α → Except PyErr β) :
    ((Except.error e : Except PyErr α) >>= f) = .error e := rfl

/-- Successful header parse: the returned offset is 24 + 4 + 1 + dc * 59, dc
is the byte at position 28, and at least 29 bytes were present. -/
theorem parseLvxHeader_ok_elim {data : List Nat} {fd dc off : Nat}
    (h : parseLvxHeader data = .ok (fd, dc, off)) :
    off = 24 + 4 + 1 + dc * 59 ∧ data.get? 28 = some dc ∧ 29 ≤ data.length := by
  simp only [parseLvxHeader, bind_ok_iff, pure_ok_iff] at h
  obtain ⟨a1, h1, a2, h2, hret⟩ := h
  rw [unpackExact_ok_iff (by norm_num)] at h1
  rw [getByte_ok_iff] at h2
  simp only [Prod.mk.injEq] at hret
  obtain ⟨-, hdc1, hdc2⟩ := hret
  subst hdc1
  have h28 : 28 < data.length := by
    rcases List.get?_eq_some.mp h2 with ⟨hl, -⟩
    exact hl
  exact ⟨hdc2.symm, h2, by omega⟩

/-- A buffer of at least 29 bytes always parses: the source never checks that
the declared device table fits inside the buffer. -/
theorem parseLvxHeader_ok_of_len {data : List Nat} (h : 29 ≤ data.length) :
    ∃ fd dc, data.get? 28 = some dc ∧
      parseLvxHeader data = .ok (fd, dc, 24 + 4 + 1 + dc * 59) := by
  have h28 : data.get? 28 = some (data.get ⟨28, by omega⟩) :=
    List.get?_eq_get (by omega)
  refine ⟨leBytes (sliceBytes data 24 (24 + 4)), data.get ⟨28, by omega⟩, h28, ?_⟩
  simp only [parseLvxHeader, bind_ok_iff, pure_ok_iff]
  refine ⟨sliceBytes data 24 (24 + 4), ?_, data.get ⟨28, by omega⟩, ?_, rfl⟩
  · rw [unpackExact_ok_iff (by norm_num)]
    exact ⟨by omega, rfl⟩
  · rw [getByte_ok_iff]
    exact h28

/-- process_lvx composed from its header parse and its frame loop. -/
theorem process_lvx_of_parts {data : List Nat} {fpo fd dc o : Nat} {s : LoopState}
    (hh : parseLvxHeader data = .ok (fd, dc, o))
    (hl : lvxLoop data fpo (initState o) = .ok s) :
    process_lvx data fpo =
      if fpo = 0 then .ok ([⟨0, s.allPoints, s.allImu⟩], s.allImu)
      else .ok (s.chunks, s.overallImu) := by
  simp only [process_lvx, hh, bind_ok_apply, hl]
  split <;> rfl

/-- A failing header parse fails process_lvx with the same error. -/
theorem process_lvx_of_parse_error {data : List Nat} {fpo : Nat} {e : PyErr}
    (hh : parseLvxHeader data = .error e) :
    process_lvx data fpo = .error e := by
  simp only [process_lvx, hh, bind_error_apply]

/-- The batch loop of main propagates the first file error: the whole batch
aborts and no later file is processed. -/
theorem runBatch_cons_error {f : List Nat} {rest : List (List Nat)} {fpo : Nat}
    {e : PyErr} (h : process_lvx f fpo = .error e) :
    runBatch (f :: rest) fpo = .error e := by
  simp only [runBatch, h, bind_error_apply]

theorem chunkSum_append (a b : List ChunkOut) :
    chunkSum (a ++ b) = chunkSum a + chunkSum b := by
  simp [chunkSum]

theorem ceil_div_of_mod_eq_zero {N t : Nat} (hN : N ≠ 0) (h : t % N = 0) :
    (t + N - 1) / N = t / N := by
  have h0 : 0 < N := Nat.pos_of_ne_zero hN
  have hd := Nat.div_add_mod t N
  have h1 : t + N - 1 = N * (t / N) + (N - 1) := by omega
  rw [h1, Nat.mul_add_div h0, Nat.div_eq_of_lt (show N - 1 < N by omega)]
  omega

theorem ceil_div_of_mod_ne_zero {N t : Nat} (hN : N ≠ 0) (h : t % N ≠ 0) :
    (t + N - 1) / N = t / N + 1 := by
  have h0 : 0 < N := Nat.pos_of_ne_zero hN
  have hd := Nat.div_add_mod t N
  have hm : t % N < N := Nat.mod_lt _ h0
  have h1 : t + N - 1 = N * (t / N + 1) + (t % N - 1) := by
    rw [Nat.mul_succ]
    omega
  rw [h1, Nat.mul_add_div h0, Nat.div_eq_of_lt (show t % N - 1 < N by omega)]

/-- Chunk-count invariant of the frame loop in chunked mode (fpo = N, N not
zero): from a state with chunkIndex = totalFrames / N and chunks indexed
0 .. chunkIndex - 1 in order, the loop ends with chunks still indexed
consecutively from 0; the final chunkIndex is totalFrames / N rounded up
when the cursor ended at or past the end of the buffer (every frame
flushed), and totalFrames / N rounded down when the loop stopped at the
under-24-byte break (an unfinished chunk is left unemitted). -/
theorem lvxLoop_count (data : List Nat) (N : Nat) (hN : N ≠ 0) :
    ∀ k (s s' : LoopState), data.length - s.offset ≤ k →
      s.chunkIndex = s.totalFrames / N →
      s.chunks.map ChunkOut.index = List.range s.chunkIndex →
      (data.length ≤ s.offset → s.totalFrames % N = 0) →
      lvxLoop data N s = .ok s' →
      s'.chunks.map ChunkOut.index = List.range s'.chunkIndex ∧
      (s'.offset < data.length → s'.chunkIndex = s'.totalFrames / N) ∧
      (data.length ≤ s'.offset → s'.chunkIndex = (s'.totalFrames + N - 1) / N) := by
  intro k
  induction k with
  | zero =>
    intro s s' hk hinv hidx hmod h
    rw [lvxLoop_eq, if_neg (by omega)] at h
    injection h with h
    subst h
    refine ⟨hidx, fun _ => hinv, fun hle => ?_⟩
    rw [ceil_div_of_mod_eq_zero hN (hmod (by omega))]
    exact hinv
  | succ k ih =>
    intro s s' hk hinv hidx hmod h
    rw [lvxLoop_eq] at h
    by_cases hlt : s.offset < data.length
    · rw [if_pos hlt] at h
      by_cases hbrk : data.length < s.offset + 24
      · rw [if_pos hbrk] at h
        injection h with h
        subst h
        exact ⟨hidx, fun _ => hinv, fun hle => absurd hle (by omega)⟩
      · rw [if_neg hbrk] at h
        split at h
        · exact absurd h (by simp)
        next fpts fimu off2 hf =>
          rw [if_neg hN] at h
          have hoff : s.offset + 24 ≤ off2 := process_frame_le hf
          by_cases hm : (s.totalFrames + 1) % N = 0
          · rw [if_pos (Or.inl hm)] at h
            refine ih _ s' ?_ ?_ ?_ ?_ h
            · show data.length - off2 ≤ k
              omega
            · show s.chunkIndex + 1 = (s.totalFrames + 1) / N
              rw [Nat.succ_div, if_pos (Nat.dvd_of_mod_eq_zero hm)]
              omega
            · show (s.chunks ++ [(⟨s.chunkIndex, s.chunkPoints ++ fpts,
                  s.chunkImu ++ fimu⟩ : ChunkOut)]).map ChunkOut.index =
                List.range (s.chunkIndex + 1)
              rw [List.map_append, hidx, List.range_succ]
              rfl
            · show data.length ≤ off2 → (s.totalFrames + 1) % N = 0
              intro _
              exact hm
          · by_cases hfl : (s.totalFrames + 1) % N = 0 ∨ data.length ≤ off2
            · rw [if_pos hfl] at h
              have hle : data.length ≤ off2 := by
                rcases hfl with hfl | hfl
                · exact absurd hfl hm
                · exact hfl
              rw [lvxLoop_eq] at h
              dsimp only at h
              rw [if_neg (by omega)] at h
              injection h with h
              subst h
              refine ⟨?_, ?_, ?_⟩
              · show (s.chunks ++ [(⟨s.chunkIndex, s.chunkPoints ++ fpts,
                    s.chunkImu ++ fimu⟩ : ChunkOut)]).map ChunkOut.index =
                  List.range (s.chunkIndex + 1)
                rw [List.map_append, hidx, List.range_succ]
                rfl
              · intro hlt2
                exact absurd (show off2 < data.length from hlt2) (by omega)
              · intro _
                show s.chunkIndex + 1 = (s.totalFrames + 1 + N - 1) / N
                rw [ceil_div_of_mod_ne_zero hN hm, Nat.succ_div,
                  if_neg (fun hd => hm (Nat.mod_eq_zero_of_dvd hd))]
                omega
            · rw [if_neg hfl] at h
              have hlt2 : off2 < data.length := by
                rcases Nat.lt_or_ge off2 data.length with hcase | hcase
                · exact hcase
                · exact absurd (Or.inr hcase) hfl
              refine ih _ s' ?_ ?_ ?_ ?_ h
              · show data.length - off2 ≤ k
                omega
              · show s.chunkIndex = (s.totalFrames + 1) / N
                rw [Nat.succ_div, if_neg (fun hd => hm (Nat.mod_eq_zero_of_dvd hd))]
                omega
              · exact hidx
              · show data.length ≤ off2 → (s.totalFrames + 1) % N = 0
                intro hle2
                exact absurd hle2 (by omega)
    · rw [if_neg hlt] at h
      injection h with h
      subst h
      refine ⟨hidx, fun _ => hinv, fun hle => ?_⟩
      rw [ceil_div_of_mod_eq_zero hN (hmod (by omega))]
      exact hinv

/-- Relation between a chunked run (fpo = N, N not zero) and a whole-file run
(fpo = 0) of the frame loop from the same cursor: both runs decode the same
frames, fail together with the same error, and on success the points of the
chunked run land either in an emitted chunk or in the residual chunkPoints
buffer: emitted plus residual equals what the fpo = 0 run accumulates. -/
theorem lvxLoop_rel (data : List Nat) (N : Nat) (hN : N ≠ 0) :
    ∀ k (s t : LoopState), data.length - s.offset ≤ k → t.offset = s.offset →
      (∃ s' t', lvxLoop data N s = .ok s' ∧ lvxLoop data 0 t = .ok t' ∧
        chunkSum s'.chunks + s'.chunkPoints.length + t.allPoints.length =
          t'.allPoints.length + chunkSum s.chunks + s.chunkPoints.length) ∨
      (∃ e, lvxLoop data N s = .error e ∧ lvxLoop data 0 t = .error e) := by
  intro k
  induction k with
  | zero =>
    intro s t hk hts
    left
    refine ⟨s, t, ?_, ?_, by omega⟩
    · rw [lvxLoop_eq, if_neg (by omega)]
    · rw [lvxLoop_eq, if_neg (by omega)]
  | succ k ih =>
    intro s t hk hts
    by_cases hlt : s.offset < data.length
    · by_cases hbrk : data.length < s.offset + 24
      · left
        refine ⟨s, t, ?_, ?_, by omega⟩
        · rw [lvxLoop_eq, if_pos hlt, if_pos hbrk]
        · rw [lvxLoop_eq, hts, if_pos hlt, if_pos hbrk]
      · rw [lvxLoop_eq data N s, lvxLoop_eq data 0 t, hts]
        rw [if_pos hlt, if_pos hlt, if_neg hbrk, if_neg hbrk]
        cases hf : process_frame data (s.offset + 24)
            (leBytes (sliceBytes data (s.offset + 8) (s.offset + 16))) with
        | error e =>
          right
          exact ⟨e, rfl, rfl⟩
        | ok r =>
          obtain ⟨fpts, fimu, off2⟩ := r
          dsimp only
          rw [if_neg hN, if_pos rfl]
          have hoff : s.offset + 24 ≤ off2 := process_frame_le hf
          by_cases hfl : (s.totalFrames + 1) % N = 0 ∨ data.length ≤ off2
          · rw [if_pos hfl]
            have hrec := ih
              { offset := off2
                totalFrames := s.totalFrames + 1
                chunkIndex := s.chunkIndex + 1
                chunkPoints := []
                chunkImu := []
                overallImu := s.overallImu ++ fimu
                allPoints := s.allPoints
                allImu := s.allImu
                chunks := s.chunks ++
                  [⟨s.chunkIndex, s.chunkPoints ++ fpts, s.chunkImu ++ fimu⟩] }
              { t with
                offset := off2
                totalFrames := t.totalFrames + 1
                allPoints := t.allPoints ++ fpts
                allImu := t.allImu ++ fimu }
              (by show data.length - off2 ≤ k; omega) rfl
            rcases hrec with ⟨s', t', h1, h2, heq⟩ | ⟨e, h1, h2⟩
            · left
              refine ⟨s', t', h1, h2, ?_⟩
              dsimp only at heq
              rw [chunkSum_append] at heq
              simp only [chunkSum, List.map_cons, List.map_nil, List.sum_cons,
                List.sum_nil, List.length_append, List.length_nil] at heq ⊢
              omega
            · right
              exact ⟨e, h1, h2⟩
          · rw [if_neg hfl]
            have hrec := ih
              { s with
                offset := off2
                totalFrames := s.totalFrames + 1
                chunkPoints := s.chunkPoints ++ fpts
                chunkImu := s.chunkImu ++ fimu
                overallImu := s.overallImu ++ fimu }
              { t with
                offset := off2
                totalFrames := t.totalFrames + 1
                allPoints := t.allPoints ++ fpts
                allImu := t.allImu ++ fimu }
              (by show data.length - off2 ≤ k; omega) rfl
            rcases hrec with ⟨s', t', h1, h2, heq⟩ | ⟨e, h1, h2⟩
            · left
              refine ⟨s', t', h1, h2, ?_⟩
              dsimp only at heq
              simp only [List.length_append] at heq ⊢
              omega
            · right
              exact ⟨e, h1, h2⟩
    · left
      refine ⟨s, t, ?_, ?_, by omega⟩
      · rw [lvxLoop_eq, if_neg (by omega)]
      · rw [lvxLoop_eq, if_neg (by omega)]

/-- The frame loop preserves sentinel-freeness of every point accumulator:
if the chunks emitted so far, the chunk buffer and the whole-file buffer
hold no sentinel point, the same holds after the loop, since every point a
frame contributes comes from a successful package decode. -/
theorem lvxLoop_points (data : List Nat) (fpo : Nat) :
    ∀ k (s s' : LoopState), data.length - s.offset ≤ k →
      lvxLoop data fpo s = .ok s' →
      (∀ c ∈ s.chunks, ∀ p ∈ c.points,
        ¬(p.x = 0 ∧ p.y = 0 ∧ p.z = 0 ∧ p.intensity = 0)) →
      (∀ p ∈ s.chunkPoints, ¬(p.x = 0 ∧ p.y = 0 ∧ p.z = 0 ∧ p.intensity = 0)) →
      (∀ p ∈ s.allPoints, ¬(p.x = 0 ∧ p.y = 0 ∧ p.z = 0 ∧ p.intensity = 0)) →
      (∀ c ∈ s'.chunks, ∀ p ∈ c.points,
        ¬(p.x = 0 ∧ p.y = 0 ∧ p.z = 0 ∧ p.intensity = 0)) ∧
      (∀ p ∈ s'.chunkPoints, ¬(p.x = 0 ∧ p.y = 0 ∧ p.z = 0 ∧ p.intensity = 0)) ∧
      (∀ p ∈ s'.allPoints, ¬(p.x = 0 ∧ p.y = 0 ∧ p.z = 0 ∧ p.intensity = 0)) := by
  intro k
  induction k with
  | zero =>
    intro s s' hk h hc hcp hap
    rw [lvxLoop_eq, if_neg (by omega)] at h
    injection h with h
    subst h
    exact ⟨hc, hcp, hap⟩
  | succ k ih =>
    intro s s' hk h hc hcp hap
    rw [lvxLoop_eq] at h
    by_cases hlt : s.offset < data.length
    · rw [if_pos hlt] at h
      by_cases hbrk : data.length < s.offset + 24
      · rw [if_pos hbrk] at h
        injection h with h
        subst h
        exact ⟨hc, hcp, hap⟩
      · rw [if_neg hbrk] at h
        split at h
        · exact absurd h (by simp)
        next fpts fimu off2 hf =>
          have hoff : s.offset + 24 ≤ off2 := process_frame_le hf
          have hfr := process_frame_points hf
          by_cases hz : fpo = 0
          · rw [if_pos hz] at h
            refine ih _ s' (by show data.length - off2 ≤ k; omega) h hc hcp ?_
            show ∀ p ∈ s.allPoints ++ fpts,
              ¬(p.x = 0 ∧ p.y = 0 ∧ p.z = 0 ∧ p.intensity = 0)
            intro p hp
            rcases List.mem_append.mp hp with hp | hp
            · exact hap p hp
            · exact (hfr p hp).2
          · rw [if_neg hz] at h
            by_cases hfl : (s.totalFrames + 1) % fpo = 0 ∨ data.length ≤ off2
            · rw [if_pos hfl] at h
              refine ih _ s' (by show data.length - off2 ≤ k; omega) h ?_ ?_ hap
              · show ∀ c ∈ s.chunks ++ [(⟨s.chunkIndex, s.chunkPoints ++ fpts,
                    s.chunkImu ++ fimu⟩ : ChunkOut)], ∀ p ∈ c.points,
                  ¬(p.x = 0 ∧ p.y = 0 ∧ p.z = 0 ∧ p.intensity = 0)
                intro c hcm p hp
                rcases List.mem_append.mp hcm with hcm | hcm
                · exact hc c hcm p hp
                · have hceq : c = ⟨s.chunkIndex, s.chunkPoints ++ fpts,
                      s.chunkImu ++ fimu⟩ := by
                    simpa using hcm
                  rw [hceq] at hp
                  rcases List.mem_append.mp hp with hp | hp
                  · exact hcp p hp
                  · exact (hfr p hp).2
              · show ∀ p ∈ ([] : List PointSample),
                  ¬(p.x = 0 ∧ p.y = 0 ∧ p.z = 0 ∧ p.intensity = 0)
                intro p hp
                simp at hp
            · rw [if_neg hfl] at h
              refine ih _ s' (by show data.length - off2 ≤ k; omega) h hc ?_ hap
              show ∀ p ∈ s.chunkPoints ++ fpts,
                ¬(p.x = 0 ∧ p.y = 0 ∧ p.z = 0 ∧ p.intensity = 0)
              intro p hp
              rcases List.mem_append.mp hp with hp | hp
              · exact hcp p hp
              · exact (hfr p hp).2
    · rw [if_neg hlt] at h
      injection h with h
      subst h
      exact ⟨hc, hcp, hap⟩

/-- Splitting off the first entry of the data_type 2 loop. -/
theorem decodeSingleLoop_cons_elim {data : List Nat} {n off : Nat}
    {pts : List PointSample} {off2 : Nat}
    (h : decodeSingleLoop data off (n + 1) = .ok (pts, off2)) :
    ∃ p0 rest o2, decodeSub data off 1 = .ok p0 ∧
      decodeSingleLoop data (off + 14) n = .ok (rest, o2) ∧
      pts = p0.toList ++ rest := by
  unfold decodeSingleLoop at h
  split at h
  · exact absurd h (by simp)
  next p hs =>
    split at h
    · exact absurd h (by simp)
    next rest o2 hl =>
      simp only [Except.ok.injEq, Prod.mk.injEq] at h
      exact ⟨p, rest, o2, hs, hl, h.1.symm⟩

/-- A sub-entry whose twelve coordinate bytes are zero but whose reflectivity
byte r is nonzero is not filtered: it decodes to the point (0, 0, 0, r, rn). -/
theorem decodeSub_of_zero {data : List Nat} {off rn r : Nat}
    {op : Option PointSample}
    (h : decodeSub data off rn = .ok op)
    (hx : sliceBytes data off (off + 4) = [0, 0, 0, 0])
    (hy : sliceBytes data (off + 4) (off + 8) = [0, 0, 0, 0])
    (hz : sliceBytes data (off + 8) (off + 12) = [0, 0, 0, 0])
    (hr : data.get? (off + 12) = some r) (hr0 : r ≠ 0) :
    op = some ⟨0, 0, 0, r, rn⟩ := by
  have hzero : fromBytesSigned [0, 0, 0, 0] = 0 := by rfl
  unfold decodeSub at h
  rw [hx, hy, hz] at h
  rw [show getByte data (off + 12) = .ok r from getByte_ok_iff.mpr hr] at h
  dsimp only at h
  split at h
  · exact absurd h (by simp)
  next t h13 =>
    rw [if_neg (fun hcond => hr0 hcond.2.2.2)] at h
    injection h with h2
    rw [← h2, hzero]

/-- The little-endian value of an all-zero byte list is zero. -/
theorem leBytes_replicate (n : Nat) : leBytes (List.replicate n 0) = 0 := by
  induction n with
  | zero => rfl
  | succ k ih =>
    rw [List.replicate_succ]
    unfold leBytes at ih ⊢
    rw [List.foldr_cons, ih]

/-- The signed value of an all-zero byte list is zero. -/
theorem fromBytesSigned_replicate (n : Nat) :
    fromBytesSigned (List.replicate n 0) = 0 := by
  unfold fromBytesSigned
  rw [leBytes_replicate]
  rw [if_pos (by positivity)]
  rfl

/-- A slice lying entirely inside an all-zero region of the buffer is an
all-zero list. -/
theorem sliceBytes_zeros {A B : List Nat} {m : Nat} (a b : Nat)
    (h1 : A.length ≤ a) (h2 : b ≤ A.length + m) :
    sliceBytes (A ++ (List.replicate m 0 ++ B)) a b = List.replicate (b - a) 0 := by
  unfold sliceBytes
  rw [List.drop_append_eq_append_drop, List.drop_eq_nil_of_le h1, List.nil_append,
    List.drop_append_eq_append_drop, List.drop_replicate,
    List.take_append_eq_append_take, List.take_replicate, List.length_replicate]
  have hk : b - a ≤ m - (a - A.length) := by omega
  rw [min_eq_left hk, Nat.sub_eq_zero_of_le hk, List.take_zero, List.append_nil]

/-- Indexing inside an all-zero replicate reads a zero. -/
theorem get_replicate_zero {m i : Nat} (h : i < m) :
    (List.replicate m (0 : Nat)).get? i = some 0 := by
  induction m generalizing i with
  | zero => omega
  | succ k ih =>
    cases i with
    | zero => rfl
    | succ j =>
      rw [List.replicate_succ]
      exact ih (by omega)

/-- A byte read inside an all-zero region of the buffer yields zero. -/
theorem getByte_zeros {A B : List Nat} {m : Nat} (i : Nat)
    (h1 : A.length ≤ i) (h2 : i < A.length + m) :
    getByte (A ++ (List.replicate m 0 ++ B)) i = .ok 0 := by
  unfold getByte
  rw [List.get?_append_right h1,
    List.get?_append (show i - A.length < (List.replicate m (0 : Nat)).length by
      rw [List.length_replicate]; omega),
    get_replicate_zero (by omega)]

/-- A sub-entry read entirely inside an all-zero region of the buffer is the
all-zero sentinel and decodes to none. -/
theorem decodeSub_zeros {A B : List Nat} {m : Nat} (off rn : Nat)
    (h1 : A.length ≤ off) (h2 : off + 14 ≤ A.length + m) :
    decodeSub (A ++ (List.replicate m 0 ++ B)) off rn = .ok none := by
  unfold decodeSub
  rw [sliceBytes_zeros off (off + 4) h1 (by omega),
    sliceBytes_zeros (off + 4) (off + 8) (by omega) (by omega),
    sliceBytes_zeros (off + 8) (off + 12) (by omega) (by omega),
    getByte_zeros (off + 12) (by omega) (by omega),
    getByte_zeros (off + 13) (by omega) (by omega)]
  dsimp only
  rw [if_pos ⟨fromBytesSigned_replicate _, fromBytesSigned_replicate _,
    fromBytesSigned_replicate _, rfl⟩]

/-- The single-return loop over a run of all-zero sub-entries keeps nothing
and advances 14 bytes per entry. -/
theorem decodeSingleLoop_zeros {A B : List Nat} {m : Nat} (n : Nat) :
    ∀ off, A.length ≤ off → off + 14 * n ≤ A.length + m →
    decodeSingleLoop (A ++ (List.replicate m 0 ++ B)) off n = .ok ([], off + 14 * n) := by
  induction n with
  | zero => intro off h1 h2; simp [decodeSingleLoop]
  | succ k ih =>
    intro off h1 h2
    unfold decodeSingleLoop
    rw [decodeSub_zeros off 1 h1 (by omega)]
    dsimp only
    rw [ih (off + 14) (by omega) (by omega)]
    dsimp only [Option.toList]
    rw [show off + 14 + 14 * k = off + 14 * (k + 1) by ring]
    rfl

/-- The triple-return loop over a run of all-zero sub-entries keeps nothing
and advances 42 bytes per entry. -/
theorem decodeTripleLoop_zeros {A B : List Nat} {m : Nat} (n : Nat) :
    ∀ off, A.length ≤ off → off + 42 * n ≤ A.length + m →
    decodeTripleLoop (A ++ (List.replicate m 0 ++ B)) off n = .ok ([], off + 42 * n) := by
  induction n with
  | zero => intro off h1 h2; simp [decodeTripleLoop]
  | succ k ih =>
    intro off h1 h2
    unfold decodeTripleLoop
    rw [decodeSub_zeros off 1 h1 (by omega),
      decodeSub_zeros (off + 14) 2 (by omega) (by omega),
      decodeSub_zeros (off + 28) 3 (by omega) (by omega)]
    dsimp only
    rw [ih (off + 42) (by omega) (by omega)]
    dsimp only [Option.toList]
    rw [show off + 42 + 42 * k = off + 42 * (k + 1) by ring]
    rfl

/-- One unfolding step of the single-return loop from known sub-results. -/
theorem decodeSingleLoop_step {data : List Nat} {off n : Nat}
    {p : Option PointSample} {rest : List PointSample} {o2 : Nat}
    (h1 : decodeSub data off 1 = .ok p)
    (h2 : decodeSingleLoop data (off + 14) n = .ok (rest, o2)) :
    decodeSingleLoop data off (n + 1) = .ok (p.toList ++ rest, o2) := by
  unfold decodeSingleLoop
  rw [h1]
  dsimp only
  rw [h2]

/-- One unfolding step of the triple-return loop from known sub-results. -/
theorem decodeTripleLoop_step {data : List Nat} {off n : Nat}
    {p1 p2 p3 : Option PointSample} {rest : List PointSample} {o2 : Nat}
    (h1 : decodeSub data off 1 = .ok p1)
    (h2 : decodeSub data (off + 14) 2 = .ok p2)
    (h3 : decodeSub data (off + 28) 3 = .ok p3)
    (h4 : decodeTripleLoop data (off + 42) n = .ok (rest, o2)) :
    decodeTripleLoop data off (n + 1) =
      .ok (p1.toList ++ p2.toList ++ p3.toList ++ rest, o2) := by
  unfold decodeTripleLoop
  rw [h1]
  dsimp only
  rw [h2]
  dsimp only
  rw [h3]
  dsimp only
  rw [h4]

/-- A 19-byte package header with all fields zero except the given data_type
byte at position 10. -/
def hdr19 (dt : Nat) : List Nat :=
  [0, 0, 0, 0, 0, 0, 0, 0, 0, 0, dt] ++ List.replicate 8 0

/-- One data_type 6 (IMU) package: 19-byte header plus 24 zero payload bytes,
43 bytes in all. -/
def pkg6buf : List Nat := hdr19 6 ++ List.replicate 24 0

/-- One data_type 2 (single-return) package whose first sub-entry has
x = y = z = 0 and reflectivity 5 (not a sentinel), all further 95 entries
all-zero sentinels; 19 + 1344 = 1363 bytes. -/
def pkg2buf : List Nat :=
  hdr19 2 ++ [0, 0, 0, 0, 0, 0, 0, 0, 0, 0, 0, 0, 5, 0] ++ List.replicate (95 * 14) 0

/-- The 33 concrete bytes of pkg2buf before its all-zero tail: the package
header plus the first sub-entry. -/
def pkg2pre : List Nat :=
  hdr19 2 ++ [0, 0, 0, 0, 0, 0, 0, 0, 0, 0, 0, 0, 5, 0]

theorem pkg2pre_len : pkg2pre.length = 33 := by rfl

theorem pkg2buf_shape : pkg2buf = pkg2pre ++ (List.replicate 1330 0 ++ []) := by
  norm_num [pkg2buf, pkg2pre, List.append_assoc]

/-- The single valid point of the triple-return test package below. -/
def pt7 : PointSample := ⟨1, 0, 0, 0, 1⟩

/-- One data_type 7 (triple-return) package: first sub-entry has x = 1 (one
valid point, return number 1), everything else sentinel; 1279 bytes. -/
def pkg7bytes : List Nat := hdr19 7 ++ [1] ++ List.replicate 1259 0

/-- A capture-file header with frame_duration 0 and device_count 0: frame
data starts at offset 29. -/
def fileHdr29 : List Nat := List.replicate 29 0

/-- A frame header declaring current_offset 0, next_offset 1332 (bytes
52 + 256 * 5) and frame_index 0. -/
def frameHdrB : List Nat :=
  List.replicate 8 0 ++ [52, 5, 0, 0, 0, 0, 0, 0] ++ List.replicate 8 0

/-- A well-formed one-frame capture file of exactly 1332 bytes: header,
frame header with next_offset 1332, one triple-return package holding one
valid point.  The frame ends exactly at the end of the buffer. -/
def fileB : List Nat := fileHdr29 ++ frameHdrB ++ pkg7bytes

/-- fileB with one trailing byte appended (1333 bytes): the frame still ends
at offset 1332, so one byte remains after the last frame. -/
def fileA : List Nat := fileB ++ [0]

/-- The 73 concrete bytes of fileB before its all-zero tail: file header,
frame header, package header and the first payload byte. -/
def fileBpre : List Nat := fileHdr29 ++ frameHdrB ++ (hdr19 7 ++ [1])

theorem fileBpre_len : fileBpre.length = 73 := by rfl

theorem fileA_shape : fileA = fileBpre ++ (List.replicate 1259 0 ++ [0]) := by
  simp only [fileA, fileB, fileBpre, pkg7bytes, List.append_assoc]

set_option maxHeartbeats 1000000 in
theorem pkg6buf_eval :
    process_package pkg6buf 0 = .ok ([], some ⟨0, List.replicate 24 0⟩, 43) := by
  rfl

set_option maxHeartbeats 1000000 in
theorem pkg6buf_frame_eval :
    process_frame pkg6buf 0 30 = .ok ([], [⟨0, List.replicate 24 0⟩], 43) := by
  rfl

/-- The single-return payload of pkg2buf: the first sub-entry survives the
filter, the 95 all-zero entries behind it are dropped by the zero-region
lemmas without walking the buffer byte by byte. -/
theorem pkg2buf_single :
    decodeSingleLoop pkg2buf 19 96 = .ok ([⟨0, 0, 0, 5, 1⟩], 1363) := by
  have hz : decodeSingleLoop pkg2buf 33 95 = .ok ([], 33 + 14 * 95) := by
    rw [pkg2buf_shape]
    exact decodeSingleLoop_zeros 95 33 (by norm_num [pkg2pre_len])
      (by norm_num [pkg2pre_len])
  have hs : decodeSub pkg2buf 19 1 = .ok (some ⟨0, 0, 0, 5, 1⟩) := by rfl
  exact decodeSingleLoop_step hs
    (show decodeSingleLoop pkg2buf (19 + 14) 95 = .ok ([], 1363) from hz)

theorem pkg2buf_eval :
    process_package pkg2buf 0 = .ok ([⟨0, 0, 0, 5, 1⟩], none, 1363) := by
  have hh : readPkgHeader pkg2buf 0 = .ok (2, 0) := by rfl
  unfold process_package
  rw [hh]
  dsimp only
  rw [if_pos rfl,
    show decodeSingleLoop pkg2buf (0 + 19) 96 = .ok ([⟨0, 0, 0, 5, 1⟩], 1363)
      from pkg2buf_single]

/-- The triple-return payload of fileA's one package: the first sub-entry of
the first entry survives (x = 1), everything behind it is all-zero. -/
theorem fileA_triple : decodeTripleLoop fileA 72 30 = .ok ([pt7], 1332) := by
  have hs1 : decodeSub fileA 72 1 = .ok (some pt7) := by rfl
  have hs2 : decodeSub fileA 86 2 = .ok none := by
    rw [fileA_shape]
    exact decodeSub_zeros 86 2 (by norm_num [fileBpre_len]) (by norm_num [fileBpre_len])
  have hs3 : decodeSub fileA 100 3 = .ok none := by
    rw [fileA_shape]
    exact decodeSub_zeros 100 3 (by norm_num [fileBpre_len]) (by norm_num [fileBpre_len])
  have hz : decodeTripleLoop fileA 114 29 = .ok ([], 114 + 42 * 29) := by
    rw [fileA_shape]
    exact decodeTripleLoop_zeros 29 114 (by norm_num [fileBpre_len])
      (by norm_num [fileBpre_len])
  exact decodeTripleLoop_step hs1
    (show decodeSub fileA (72 + 14) 2 = .ok none from hs2)
    (show decodeSub fileA (72 + 28) 3 = .ok none from hs3)
    (show decodeTripleLoop fileA (72 + 42) 29 = .ok ([], 1332) from hz)

theorem fileA_pkg_eval : process_package fileA 53 = .ok ([pt7], none, 1332) := by
  have hh : readPkgHeader fileA 53 = .ok (7, 0) := by rfl
  unfold process_package
  rw [hh]
  dsimp only
  rw [if_neg (by norm_num), if_neg (by norm_num), if_pos rfl,
    show decodeTripleLoop fileA (53 + 19) 30 = .ok ([pt7], 1332) from fileA_triple]

set_option maxRecDepth 10000 in
theorem fileA_len : fileA.length = 1333 := by rfl

set_option maxRecDepth 10000 in
theorem fileA_next : leBytes (sliceBytes fileA 37 45) = 1332 := by rfl

theorem fileA_frame_eval : process_frame fileA 53 1332 = .ok ([pt7], [], 1332) := by
  rw [process_frame_eq, if_pos (by norm_num), fileA_pkg_eval]
  dsimp only
  rw [process_frame_eq, if_neg (by norm_num)]
  rfl

theorem fileA_loop2 :
    lvxLoop fileA 2 (initState 29) =
      .ok ⟨1332, 1, 0, [pt7], [], [], [], [], []⟩ := by
  rw [lvxLoop_eq,
    if_pos (show (initState 29).offset < fileA.length by
      norm_num [initState, fileA_len]),
    if_neg (show ¬fileA.length < (initState 29).offset + 24 by
      norm_num [initState, fileA_len]),
    show process_frame fileA ((initState 29).offset + 24)
        (leBytes (sliceBytes fileA ((initState 29).offset + 8)
          ((initState 29).offset + 16))) = .ok ([pt7], [], 1332)
      from fileA_frame_eval]
  dsimp only
  rw [if_neg (by norm_num),
    if_neg (show ¬(((initState 29).totalFrames + 1) % 2 = 0 ∨ fileA.length ≤ 1332) by
      norm_num [initState, fileA_len])]
  rw [lvxLoop_eq,
    if_pos (by simp [initState, fileA_len]),
    if_pos (by simp [initState, fileA_len])]
  simp [initState]

theorem fileA_loop0 :
    lvxLoop fileA 0 (initState 29) =
      .ok ⟨1332, 1, 0, [], [], [], [pt7], [], []⟩ := by
  rw [lvxLoop_eq,
    if_pos (show (initState 29).offset < fileA.length by
      norm_num [initState, fileA_len]),
    if_neg (show ¬fileA.length < (initState 29).offset + 24 by
      norm_num [initState, fileA_len]),
    show process_frame fileA ((initState 29).offset + 24)
        (leBytes (sliceBytes fileA ((initState 29).offset + 8)
          ((initState 29).offset + 16))) = .ok ([pt7], [], 1332)
      from fileA_frame_eval]
  dsimp only
  rw [if_pos rfl]
  rw [lvxLoop_eq,
    if_pos (by simp [initState, fileA_len]),
    if_pos (by simp [initState, fileA_len])]
  simp [initState]

theorem hdr29_loop (fpo : Nat) :
    lvxLoop fileHdr29 fpo (initState 29) = .ok (initState 29) := by
  rw [lvxLoop_eq, if_neg (by norm_num [initState, fileHdr29])]

theorem fileA_parse : parseLvxHeader fileA = .ok (0, 0, 29) := by rfl

theorem hdr29_parse : parseLvxHeader fileHdr29 = .ok (0, 0, 29) := by rfl

/-- A 29-byte buffer whose device_count byte declares 3 devices: the header
parse succeeds although the declared device table (3 * 59 bytes) is absent. -/
def buf29dc3 : List Nat := List.replicate 28 0 ++ [3]

theorem buf29dc3_parse : parseLvxHeader buf29dc3 = .ok (0, 3, 206) := by rfl

theorem buf29dc3_len : buf29dc3.length = 29 := by rfl

theorem fileA_lvx2 : process_lvx fileA 2 = .ok ([], []) := by
  rw [process_lvx_of_parts fileA_parse fileA_loop2]
  norm_num

theorem fileA_lvx0 : process_lvx fileA 0 = .ok ([⟨0, [pt7], []⟩], []) := by
  rw [process_lvx_of_parts fileA_parse fileA_loop0]
  norm_num

/-- A frame header declaring current_offset 0, next_offset 96 and
frame_index 0. -/
def frameHdrC : List Nat :=
  List.replicate 8 0 ++ [96, 0, 0, 0, 0, 0, 0, 0] ++ List.replicate 8 0

/-- A well-formed one-frame capture file of exactly 96 bytes: header, frame
header with next_offset 96, one IMU package.  The frame ends exactly at the
end of the buffer. -/
def fileC : List Nat := fileHdr29 ++ frameHdrC ++ pkg6buf

/-- fileC with one trailing byte appended (97 bytes): one byte remains after
the last frame. -/
def fileD : List Nat := fileC ++ [0]

set_option maxRecDepth 10000 in
theorem fileC_len : fileC.length = 96 := by rfl

set_option maxRecDepth 10000 in
theorem fileC_loop2 :
    lvxLoop fileC 2 (initState 29) =
      .ok ⟨96, 1, 1, [], [], [⟨0, List.replicate 24 0⟩], [], [],
        [⟨0, [], [⟨0, List.replicate 24 0⟩]⟩]⟩ := by
  rfl

set_option maxRecDepth 10000 in
theorem fileC_loop0 :
    lvxLoop fileC 0 (initState 29) =
      .ok ⟨96, 1, 0, [], [], [], [], [⟨0, List.replicate 24 0⟩], []⟩ := by
  rfl

set_option maxRecDepth 10000 in
theorem fileD_loop2 :
    lvxLoop fileD 2 (initState 29) =
      .ok ⟨96, 1, 0, [], [⟨0, List.replicate 24 0⟩], [⟨0, List.replicate 24 0⟩],
        [], [], []⟩ := by
  rfl

set_option maxRecDepth 10000 in
theorem fileD_lvx2 : process_lvx fileD 2 = .ok ([], [⟨0, List.replicate 24 0⟩]) := by
  rfl

theorem hdr29_lvx0 : process_lvx fileHdr29 0 = .ok ([⟨0, [], []⟩], []) := by
  rw [process_lvx_of_parts hdr29_parse (hdr29_loop 0)]
  norm_num [initState]

theorem empty_lvx (fpo : Nat) : process_lvx [] fpo = .error .structError := by rfl

theorem batch_abort_eval : runBatch [[], fileHdr29] 0 = .error .structError := by
  simp only [runBatch, empty_lvx, bind_error_apply]

/-- Decomposition of a successful process_lvx run into its header parse, its
frame loop and the final mode split. -/
theorem process_lvx_ok_elim {data : List Nat} {fpo : Nat}
    {r : List ChunkOut × List ImuRecord}
    (h : process_lvx data fpo = .ok r) :
    ∃ fd dc o s, parseLvxHeader data = .ok (fd, dc, o) ∧
      lvxLoop data fpo (initState o) = .ok s ∧
      ((fpo = 0 ∧ r = ([⟨0, s.allPoints, s.allImu⟩], s.allImu)) ∨
       (fpo ≠ 0 ∧ r = (s.chunks, s.overallImu))) := by
  simp only [process_lvx, bind_ok_iff] at h
  obtain ⟨hdr, hh, s, hl, hfin⟩ := h
  obtain ⟨fd, dc, o⟩ := hdr
  refine ⟨fd, dc, o, s, hh, hl, ?_⟩
  by_cases hz : fpo = 0
  · rw [if_pos hz, pure_ok_iff] at hfin
    exact Or.inl ⟨hz, hfin.symm⟩
  · rw [if_neg hz, pure_ok_iff] at hfin
    exact Or.inr ⟨hz, hfin.symm⟩

/-- Claim C1: no point sample produced by process_package — and hence none
accumulated by process_frame and none inside any chunk emitted by
process_lvx — is the all-zero sentinel: x = 0, y = 0, z = 0 and
intensity = 0 never all hold for a decoded point, for every buffer, offset
and data type (2, 4 and 7 alike). -/
theorem claim_C1 :
    (∀ (data : List Nat) (offset : Nat) (pts : List PointSample)
        (imu : Option ImuRecord) (off2 : Nat),
      process_package data offset = .ok (pts, imu, off2) →
      ∀ p ∈ pts, ¬(p.x = 0 ∧ p.y = 0 ∧ p.z = 0 ∧ p.intensity = 0)) ∧
    (∀ (data : List Nat) (offset fe : Nat) (pts : List PointSample)
        (imus : List ImuRecord) (off2 : Nat),
      process_frame data offset fe = .ok (pts, imus, off2) →
      ∀ p ∈ pts, ¬(p.x = 0 ∧ p.y = 0 ∧ p.z = 0 ∧ p.intensity = 0)) ∧
    (∀ (data : List Nat) (fpo : Nat) (r : List ChunkOut × List ImuRecord),
      process_lvx data fpo = .ok r →
      ∀ c ∈ r.1, ∀ p ∈ c.points,
        ¬(p.x = 0 ∧ p.y = 0 ∧ p.z = 0 ∧ p.intensity = 0)) := by
  refine ⟨?_, ?_, ?_⟩
  · intro data offset pts imu off2 h p hp
    exact (pp_points h p hp).2
  · intro data offset fe pts imus off2 h p hp
    exact (process_frame_points h p hp).2
  · intro data fpo r h c hc p hp
    obtain ⟨fd, dc, o, s, hh, hl, hcase⟩ := process_lvx_ok_elim h
    have hpts := lvxLoop_points data fpo (data.length - (initState o).offset)
      (initState o) s le_rfl hl (by simp [initState]) (by simp [initState])
      (by simp [initState])
    rcases hcase with ⟨hz, hr⟩ | ⟨hz, hr⟩
    · subst hr
      have hceq : c = ⟨0, s.allPoints, s.allImu⟩ := by simpa using hc
      rw [hceq] at hp
      exact hpts.2.2 p hp
    · subst hr
      exact hpts.1 c (by simpa using hc) p hp

/-- Claim C1 witness: the concrete single-return package emits exactly the
point (0, 0, 0, 5, 1), which is not a sentinel. -/
theorem claim_C1_witness :
    process_package pkg2buf 0 = .ok ([⟨0, 0, 0, 5, 1⟩], none, 1363) ∧
    ¬((PointSample.mk 0 0 0 5 1).x = 0 ∧ (PointSample.mk 0 0 0 5 1).y = 0 ∧
      (PointSample.mk 0 0 0 5 1).z = 0 ∧ (PointSample.mk 0 0 0 5 1).intensity = 0) :=
  ⟨pkg2buf_eval, claim_C1.1 pkg2buf 0 [⟨0, 0, 0, 5, 1⟩] none 1363 pkg2buf_eval
    ⟨0, 0, 0, 5, 1⟩ (by simp)⟩

/-- Claim C2 counterexample: a batch of two files whose first file (empty
buffer) fails to decode.  The batch aborts with that error and the second
file — well-formed, decodable on its own — is never processed, contradicting
the claim that the driver records the failure and continues with the
remaining files. -/
theorem claim_C2_counterexample :
    runBatch [[], fileHdr29] 0 = .error .structError ∧
    process_lvx fileHdr29 0 = .ok ([⟨0, [], []⟩], []) :=
  ⟨batch_abort_eval, hdr29_lvx0⟩

/-- Claim C2 (amended): the source's batch loop has no per-file error
handling: a decode failure in one capture file propagates out of process_lvx
uncaught, the batch stops at the first failing file with that error, no
failure record is produced, and the remaining files are not processed. -/
theorem claim_C2 :
    ∀ (f : List Nat) (rest : List (List Nat)) (fpo : Nat) (e : PyErr),
      process_lvx f fpo = .error e → runBatch (f :: rest) fpo = .error e :=
  fun _ _ _ _ h => runBatch_cons_error h

/-- Claim C2 witness: the empty buffer fails its header read, and a batch
starting with it aborts with the same error. -/
theorem claim_C2_witness :
    process_lvx [] 0 = .error .structError ∧
    runBatch [[], fileHdr29] 0 = .error .structError :=
  ⟨empty_lvx 0, claim_C2 [] [fileHdr29] 0 .structError (empty_lvx 0)⟩

/-- Claim C3 counterexample: a package decode that overruns the frame's
declared end raises nothing.  With frame_end 30, the 43-byte IMU package at
offset 0 decodes fine and the frame loop returns normally at offset 43 past
the bound, where the claim demands a BoundsError. -/
theorem claim_C3_counterexample :
    process_frame pkg6buf 0 30 = .ok ([], [⟨0, List.replicate 24 0⟩], 43) ∧
    30 < 43 :=
  ⟨pkg6buf_frame_eval, by norm_num⟩

/-- Claim C3 (amended): the source has no frame-bound check — a package
overrunning nextOffset decodes without error and the frame loop just exits
past the bound — and no BoundsError type; out-of-buffer reads raise the
Python built-ins IndexError/struct.error instead.  What does hold: a
successful package decode implies its reads were in bounds — the 19-byte
header always, and the whole fixed payload for the known data types (1344
bytes for 2 and 4, 1260 for 7, 24 for 6); only the unknown-type skip
advances without reading. -/
theorem claim_C3 :
    ∀ (data : List Nat) (offset : Nat) (pts : List PointSample)
      (imu : Option ImuRecord) (off2 dt : Nat),
      process_package data offset = .ok (pts, imu, off2) →
      data.get? (offset + 10) = some dt →
      offset + 19 ≤ data.length ∧
      (dt = 2 → offset + 1363 ≤ data.length) ∧
      (dt = 4 → offset + 1363 ≤ data.length) ∧
      (dt = 7 → offset + 1279 ≤ data.length) ∧
      (dt = 6 → offset + 43 ≤ data.length) :=
  fun _ _ _ _ _ _ h hdt => pp_bounds h hdt

/-- Claim C3 witness: the bounds consequence evaluated on the concrete
43-byte IMU package. -/
theorem claim_C3_witness :
    process_package pkg6buf 0 = .ok ([], some ⟨0, List.replicate 24 0⟩, 43) ∧
    pkg6buf.get? 10 = some 6 ∧
    0 + 19 ≤ pkg6buf.length ∧ 0 + 43 ≤ pkg6buf.length := by
  have h2 : pkg6buf.get? 10 = some 6 := by rfl
  have h3 := claim_C3 pkg6buf 0 [] (some ⟨0, List.replicate 24 0⟩) 43 6
    pkg6buf_eval (show pkg6buf.get? (0 + 10) = some 6 from h2)
  exact ⟨pkg6buf_eval, h2, h3.1, h3.2.2.2.2 rfl⟩

/-- Claim C4 counterexample: a 29-byte buffer declaring device_count 3
parses successfully with post-header offset 206, although its length 29 is
far below the fixed header plus 3 * 59 device-table bytes the claim says
must be present for the parse to succeed. -/
theorem claim_C4_counterexample :
    parseLvxHeader buf29dc3 = .ok (0, 3, 206) ∧ buf29dc3.length < 29 + 3 * 59 :=
  ⟨buf29dc3_parse, by norm_num [buf29dc3_len]⟩

/-- Claim C4 (amended): the header parse fails exactly when the buffer is
shorter than the 29 fixed header bytes (24-byte public header, u32 frame
duration, device_count byte); the device table is never checked against the
buffer length.  On success it returns the metadata and the post-header
offset 24 + 4 + 1 + deviceCount * 59, with no other side effect. -/
theorem claim_C4 :
    ∀ data : List Nat,
      (∃ fd dc, parseLvxHeader data = .ok (fd, dc, 24 + 4 + 1 + dc * 59)) ↔
        29 ≤ data.length := by
  intro data
  constructor
  · rintro ⟨fd, dc, h⟩
    exact (parseLvxHeader_ok_elim h).2.2
  · intro h
    obtain ⟨fd, dc, -, hp⟩ := parseLvxHeader_ok_of_len h
    exact ⟨fd, dc, hp⟩

/-- Claim C4 witness: the 29-byte header-only file satisfies both sides. -/
theorem claim_C4_witness : 29 ≤ fileHdr29.length :=
  (claim_C4 fileHdr29).mp ⟨0, 0, hdr29_parse⟩

/-- Claim C5 counterexample: fileD holds F = 1 frame followed by one
trailing byte, with framesPerChunk N = 2.  The claim demands
ceil(1 / 2) = 1 emitted chunk, but the run emits none: the frame's data
stays in the never-flushed residual buffers and process_lvx returns an
empty chunk list. -/
theorem claim_C5_counterexample :
    lvxLoop fileD 2 (initState 29) =
      .ok ⟨96, 1, 0, [], [⟨0, List.replicate 24 0⟩], [⟨0, List.replicate 24 0⟩],
        [], [], []⟩ ∧
    process_lvx fileD 2 = .ok ([], [⟨0, List.replicate 24 0⟩]) ∧
    (1 + 2 - 1) / 2 = 1 ∧ ([] : List ChunkOut).length ≠ 1 :=
  ⟨fileD_loop2, fileD_lvx2, by norm_num, by norm_num⟩

/-- Claim C5 (amended): in chunked mode the emitted chunks are indexed
0, 1, 2, ... in emission order, and their number is ceil(F / N) exactly
when the traversal ends with the cursor at or past the end of the buffer
(in particular when the last frame ends exactly at the buffer end, and
always when N divides F); when the loop instead stops at the under-24-byte
break with an unfinished chunk pending, that chunk is never emitted and the
count is floor(F / N). -/
theorem claim_C5 :
    ∀ (data : List Nat) (N o : Nat) (s' : LoopState),
      N ≠ 0 → lvxLoop data N (initState o) = .ok s' →
      s'.chunks.map ChunkOut.index = List.range s'.chunkIndex ∧
      s'.chunks.length = s'.chunkIndex ∧
      (data.length ≤ s'.offset → s'.chunkIndex = (s'.totalFrames + N - 1) / N) ∧
      (s'.offset < data.length → s'.chunkIndex = s'.totalFrames / N) := by
  intro data N o s' hN h
  have hcount := lvxLoop_count data N hN (data.length - (initState o).offset)
    (initState o) s' le_rfl (by simp [initState]) (by simp [initState])
    (fun _ => by simp [initState]) h
  obtain ⟨hidx, hfloor, hceil⟩ := hcount
  refine ⟨hidx, ?_, hceil, hfloor⟩
  have hlen := congrArg List.length hidx
  simpa using hlen

/-- Claim C5 witness: fileC (one frame ending exactly at the buffer end)
with N = 2 emits exactly ceil(1 / 2) = 1 chunk, indexed 0. -/
theorem claim_C5_witness :
    lvxLoop fileC 2 (initState 29) =
      .ok ⟨96, 1, 1, [], [], [⟨0, List.replicate 24 0⟩], [], [],
        [⟨0, [], [⟨0, List.replicate 24 0⟩]⟩]⟩ ∧
    ([⟨0, [], [⟨0, List.replicate 24 0⟩]⟩] : List ChunkOut).map ChunkOut.index =
      List.range 1 ∧
    ([⟨0, [], [⟨0, List.replicate 24 0⟩]⟩] : List ChunkOut).length = 1 ∧
    (1 : Nat) = (1 + 2 - 1) / 2 := by
  have h := claim_C5 fileC 2 29
    ⟨96, 1, 1, [], [], [⟨0, List.replicate 24 0⟩], [], [],
      [⟨0, [], [⟨0, List.replicate 24 0⟩]⟩]⟩
    (by norm_num) fileC_loop2
  exact ⟨fileC_loop2, h.1, h.2.1, h.2.2.1 (by norm_num [fileC_len])⟩

/-- Claim C6 counterexample: on fileA (one frame with one valid point, one
trailing byte) with N = 2, the chunked run emits no chunks at all — sum of
chunk point counts 0 — while the framesPerChunk = 0 run yields one chunk
with 1 point, so the two totals differ. -/
theorem claim_C6_counterexample :
    process_lvx fileA 2 = .ok ([], []) ∧
    process_lvx fileA 0 = .ok ([⟨0, [pt7], []⟩], []) ∧
    chunkSum [] = 0 ∧ chunkSum [⟨0, [pt7], []⟩] = 1 ∧ (0 : Nat) ≠ 1 :=
  ⟨fileA_lvx2, fileA_lvx0, rfl, by simp [chunkSum], by norm_num⟩

/-- Claim C6 (amended): the points of a chunked run are conserved only up to
the residual buffer: emitted chunk points plus the residual unflushed
chunkPoints equal the framesPerChunk = 0 point count — so the claim's
equality holds exactly when the residual is empty (for instance when the
last frame ends at the buffer end, or when N divides F), and fails when
trailing bytes leave an unfinished chunk unemitted.  The framesPerChunk = 0 mode
does flush exactly once, at end of input, with all accumulated points and
IMU samples. -/
theorem claim_C6 :
    (∀ (data : List Nat) (N o : Nat) (s' t' : LoopState), N ≠ 0 →
      lvxLoop data N (initState o) = .ok s' →
      lvxLoop data 0 (initState o) = .ok t' →
      chunkSum s'.chunks + s'.chunkPoints.length = t'.allPoints.length) ∧
    (∀ (data : List Nat) (fd dc o : Nat) (s : LoopState),
      parseLvxHeader data = .ok (fd, dc, o) →
      lvxLoop data 0 (initState o) = .ok s →
      process_lvx data 0 = .ok ([⟨0, s.allPoints, s.allImu⟩], s.allImu)) := by
  constructor
  · intro data N o s' t' hN hs ht
    have hrel := lvxLoop_rel data N hN (data.length - (initState o).offset)
      (initState o) (initState o) le_rfl rfl
    rcases hrel with ⟨s'', t'', h1, h2, heq⟩ | ⟨e, h1, h2⟩
    · rw [hs] at h1
      rw [ht] at h2
      injection h1 with h1
      injection h2 with h2
      subst h1
      subst h2
      simpa [initState, chunkSum] using heq
    · rw [hs] at h1
      simp at h1
  · intro data fd dc o s hh hl
    rw [process_lvx_of_parts hh hl]
    rfl

/-- Claim C6 witness: on fileC both runs agree: the emitted chunk points
(none, the frame is an IMU frame) match the framesPerChunk = 0 count. -/
theorem claim_C6_witness :
    lvxLoop fileC 2 (initState 29) =
      .ok ⟨96, 1, 1, [], [], [⟨0, List.replicate 24 0⟩], [], [],
        [⟨0, [], [⟨0, List.replicate 24 0⟩]⟩]⟩ ∧
    lvxLoop fileC 0 (initState 29) =
      .ok ⟨96, 1, 0, [], [], [], [], [⟨0, List.replicate 24 0⟩], []⟩ ∧
    chunkSum [⟨0, [], [⟨0, List.replicate 24 0⟩]⟩] +
      ([] : List PointSample).length = ([] : List PointSample).length :=
  ⟨fileC_loop2, fileC_loop0,
    claim_C6.1 fileC 2 29
      ⟨96, 1, 1, [], [], [⟨0, List.replicate 24 0⟩], [], [],
        [⟨0, [], [⟨0, List.replicate 24 0⟩]⟩]⟩
      ⟨96, 1, 0, [], [], [], [], [⟨0, List.replicate 24 0⟩], []⟩ (by norm_num)
      fileC_loop2 fileC_loop0⟩

/-- Claim C7: every point a package emits carries a return number in
{1, 2, 3}; data type 2 emits only return number 1 and data type 4 only 1 or
2 (type 7 is covered by the first conjunct); and the return number is the
positional slot argument of the sub-entry decoder — a surviving sub-point
keeps its positional number no matter which neighbouring sub-points the
sentinel filter discarded. -/
theorem claim_C7 :
    ∀ (data : List Nat) (offset : Nat) (pts : List PointSample)
      (imu : Option ImuRecord) (off2 dt : Nat),
      process_package data offset = .ok (pts, imu, off2) →
      data.get? (offset + 10) = some dt →
      (∀ p ∈ pts, p.returnNumber = 1 ∨ p.returnNumber = 2 ∨ p.returnNumber = 3) ∧
      (dt = 2 → ∀ p ∈ pts, p.returnNumber = 1) ∧
      (dt = 4 → ∀ p ∈ pts, p.returnNumber = 1 ∨ p.returnNumber = 2) ∧
      (∀ (off rn : Nat) (p : PointSample),
        decodeSub data off rn = .ok (some p) → p.returnNumber = rn) := by
  intro data offset pts imu off2 dt h hdt
  refine ⟨fun p hp => (pp_points h p hp).1, (pp_points_perType h hdt).1,
    (pp_points_perType h hdt).2, ?_⟩
  intro off rn p hsub
  exact ((decodeSub_ok_elim hsub).2 p rfl).1

/-- Claim C7 witness: the concrete single-return package emits one point
and its return number is 1, as data type 2 demands. -/
theorem claim_C7_witness :
    process_package pkg2buf 0 = .ok ([⟨0, 0, 0, 5, 1⟩], none, 1363) ∧
    pkg2buf.get? 10 = some 2 ∧
    (PointSample.mk 0 0 0 5 1).returnNumber = 1 := by
  have hdt : pkg2buf.get? 10 = some 2 := by rfl
  have h := claim_C7 pkg2buf 0 [⟨0, 0, 0, 5, 1⟩] none 1363 2 pkg2buf_eval
    (show pkg2buf.get? (0 + 10) = some 2 from hdt)
  exact ⟨pkg2buf_eval, hdt, h.2.1 rfl ⟨0, 0, 0, 5, 1⟩ (by simp)⟩

/-- Claim C8 counterexample: the package header is 19 bytes, not 16.  The
concrete data type 6 package decodes with newOffset 43 = 0 + 19 + 24, while
the claim demands 0 + 16 + 24 = 40. -/
theorem claim_C8_counterexample :
    process_package pkg6buf 0 = .ok ([], some ⟨0, List.replicate 24 0⟩, 43) ∧
    (43 : Nat) ≠ 0 + 16 + 24 :=
  ⟨pkg6buf_eval, by norm_num⟩

/-- Claim C8 (amended): PackageDecoder returns newOffset = offset + 19 (the
package header: five single bytes, the 4-byte status code, two single
bytes, the 8-byte timestamp) plus the fixed payload size determined solely
by dataType (1344 bytes for types 2 and 4, 1260 for type 7, 24 for type 6
and for any unrecognized type), regardless of how many points pass the
sentinel filter and regardless of payload content. -/
theorem claim_C8 :
    ∀ (data : List Nat) (offset : Nat) (pts : List PointSample)
      (imu : Option ImuRecord) (off2 dt : Nat),
      process_package data offset = .ok (pts, imu, off2) →
      data.get? (offset + 10) = some dt →
      off2 = offset + 19 + payloadSize dt :=
  fun _ _ _ _ _ _ h hdt => pp_newOffset h hdt

/-- Claim C8 witness: the concrete IMU package advances 0 to
0 + 19 + payloadSize 6 = 43. -/
theorem claim_C8_witness :
    process_package pkg6buf 0 = .ok ([], some ⟨0, List.replicate 24 0⟩, 43) ∧
    pkg6buf.get? 10 = some 6 ∧ (43 : Nat) = 0 + 19 + payloadSize 6 := by
  have h2 : pkg6buf.get? 10 = some 6 := by rfl
  exact ⟨pkg6buf_eval, h2,
    claim_C8 pkg6buf 0 [] (some ⟨0, List.replicate 24 0⟩) 43 6 pkg6buf_eval
      (show pkg6buf.get? (0 + 10) = some 6 from h2)⟩

/-- Claim C9: every successful package decode strictly advances the cursor
by at least 40 bytes (in fact at least 43), and every successful
process_frame call returns an offset at least its input offset, so offsets
are non-decreasing across the traversal; the per-frame package loop is a
total function here, which is its termination for every buffer and frame
end bound. -/
theorem claim_C9 :
    (∀ (data : List Nat) (offset : Nat) (pts : List PointSample)
        (imu : Option ImuRecord) (off2 : Nat),
      process_package data offset = .ok (pts, imu, off2) → offset + 40 ≤ off2) ∧
    (∀ (data : List Nat) (offset fe : Nat) (pts : List PointSample)
        (imus : List ImuRecord) (off2 : Nat),
      process_frame data offset fe = .ok (pts, imus, off2) → offset ≤ off2) := by
  constructor
  · intro data offset pts imu off2 h
    have := pp_off_ge h
    omega
  · intro data offset fe pts imus off2 h
    exact process_frame_le h

/-- Claim C9 witness: the concrete IMU package advances 0 to 43, and the
frame loop around it does not move the cursor backwards. -/
theorem claim_C9_witness :
    process_package pkg6buf 0 = .ok ([], some ⟨0, List.replicate 24 0⟩, 43) ∧
    0 + 40 ≤ 43 ∧
    process_frame pkg6buf 0 30 = .ok ([], [⟨0, List.replicate 24 0⟩], 43) ∧
    (0 : Nat) ≤ 43 :=
  ⟨pkg6buf_eval,
    claim_C9.1 pkg6buf 0 [] (some ⟨0, List.replicate 24 0⟩) 43 pkg6buf_eval,
    pkg6buf_frame_eval,
    claim_C9.2 pkg6buf 0 30 [] [⟨0, List.replicate 24 0⟩] 43 pkg6buf_frame_eval⟩

/-- Claim C10: a sub-entry with x = y = z = 0 but nonzero reflectivity is
not treated as a sentinel: for a data type 2 package whose first sub-entry
has twelve zero coordinate bytes and reflectivity byte r not zero, the
point (0, 0, 0, r, 1) is in the decoded output — the sentinel exclusion
applies only when all four of x, y, z and intensity are zero. -/
theorem claim_C10 :
    ∀ (data : List Nat) (offset : Nat) (pts : List PointSample)
      (imu : Option ImuRecord) (off2 r : Nat),
      process_package data offset = .ok (pts, imu, off2) →
      data.get? (offset + 10) = some 2 →
      sliceBytes data (offset + 19) (offset + 19 + 4) = [0, 0, 0, 0] →
      sliceBytes data (offset + 19 + 4) (offset + 19 + 8) = [0, 0, 0, 0] →
      sliceBytes data (offset + 19 + 8) (offset + 19 + 12) = [0, 0, 0, 0] →
      data.get? (offset + 19 + 12) = some r →
      r ≠ 0 →
      PointSample.mk 0 0 0 r 1 ∈ pts := by
  intro data offset pts imu off2 r h hdt hx hy hz hr hr0
  obtain ⟨dt', ts, hh, hbr⟩ := pp_ok_elim h
  obtain ⟨-, hdt'⟩ := readPkgHeader_ok_elim hh
  rw [hdt] at hdt'
  injection hdt' with hdd
  subst hdd
  rcases hbr with ⟨-, hl, -⟩ | ⟨hne, -, -⟩ | ⟨hne, -, -⟩ | ⟨hne, -, -, -⟩ |
    ⟨hne, -, -, -, -, -, -⟩
  · obtain ⟨p0, rest, o2, hsub, -, hpts⟩ := decodeSingleLoop_cons_elim
      (show decodeSingleLoop data (offset + 19) (95 + 1) = .ok (pts, off2) from hl)
    have hp0 : p0 = some ⟨0, 0, 0, r, 1⟩ := decodeSub_of_zero hsub hx hy hz hr hr0
    rw [hpts, hp0]
    simp
  · norm_num at hne
  · norm_num at hne
  · norm_num at hne
  · exact absurd rfl hne

/-- Claim C10 witness: the concrete single-return package whose first
sub-entry has zero coordinates and reflectivity 5 decodes to exactly that
one point. -/
theorem claim_C10_witness :
    process_package pkg2buf 0 = .ok ([⟨0, 0, 0, 5, 1⟩], none, 1363) ∧
    PointSample.mk 0 0 0 5 1 ∈ [PointSample.mk 0 0 0 5 1] :=
  ⟨pkg2buf_eval,
    claim_C10 pkg2buf 0 [⟨0, 0, 0, 5, 1⟩] none 1363 5 pkg2buf_eval
      (by rfl) (by rfl) (by rfl) (by rfl) (by rfl) (by norm_num)⟩

end Lvx
